import Mathlib

/-!
# delete-bucket.go: the drain loop, the confirmation gate and the orchestrator

A shallow embedding of `src/delete-bucket.go`.

* The S3 service and the terminal are external: `S3Client` holds what the S3
  calls answer, `stdin` is the sequence of characters standard input still
  holds, read by `Scanln` as `fmt.Scanln` of the Go library reads them.
* `deleteAllObjects` is the main goroutine of the Go function, with every
  started goroutine finishing at once; `step` is the same function as a
  machine in which the started goroutines finish whenever the scheduler lets
  them, with the semaphore channel and the WaitGroup explicit.
* A run carries the trace of the calls and prints it made.  `fuel` bounds the
  number of iterations of the unbounded `for` loop; a run whose `result` is
  `none` has not returned within the fuel.
* Every call to S3 is taken to return, with a value or with an error.
-/

namespace DeleteBucket

/-! ## Data -/

/-- The part of `s3.ListObjectsV2Output` the program reads: the keys of
`Contents` (through `aws.ToString(object.Key)`) and `NextContinuationToken`
(a `*string`, `none` for nil). -/
structure ListObjectsV2Output where
  Contents : List String
  NextContinuationToken : Option String
deriving DecidableEq, Repr

/-- The S3 service as the program sees it.

* `ListBuckets`: the bucket names (`aws.ToString(bucket.Name)`), `none` when
  the call fails.
* `ListObjectsV2 bucket k token`: the answer to the `k`-th list request
  (counted from 0) of a drain of `bucket`, sent with continuation token
  `token`; `none` when the call fails.  The request number is an argument
  because the service may answer the same token differently as deletes take
  effect.
* `DeleteObject bucket n key`: whether the `n`-th delete started by a drain of
  `bucket` succeeds (`true` for `err == nil`).
* `DeleteBucket bucket`: whether removing the bucket succeeds. -/
structure S3Client where
  ListBuckets : Option (List String)
  ListObjectsV2 : String → Nat → Option String → Option ListObjectsV2Output
  DeleteObject : String → Nat → String → Bool
  DeleteBucket : String → Bool

/-- The lines the program prints. -/
inductive Line where
  | unableToLoadConfig
  | failedToListBuckets
  | foundBucket (bucketName : String)
  | askEmptyAndDelete
  | askAreYouSure (bucketName : String)
  | deletingAllObjects (bucketName : String)
  | failedToDeleteAllObjects (bucketName : String)
  | deletedAllObjects
  | deletingBucket (bucketName : String)
  | failedToDeleteBucket (bucketName : String)
  | deletedBucket
  | canceled
  | failedToDeleteObject (objectKey : String)
deriving DecidableEq, Repr

/-- What a run does that can be observed from outside. -/
inductive Event where
  | print (line : Line)
  | scanln (stored : String)
  | listObjectsV2 (bucket : String) (token : Option String)
      (resp : Option ListObjectsV2Output)
  | goDeleteObject (bucket : String) (key : String)
  | deleteObjectDone (bucket : String) (key : String) (ok : Bool)
  | deleteBucket (bucket : String) (ok : Bool)
deriving DecidableEq, Repr

/-- The `error` that `deleteAllObjects` returns. -/
inductive GoError where
  | nil
  | unableToListObjects
deriving DecidableEq, Repr

/-- A bounded run: the events so far and, when the function has returned,
what it returned. -/
structure Run (α : Type) where
  trace : List Event
  result : Option α
deriving Repr

/-! ## deleteAllObjects, main goroutine -/

/-- Capacity of the `semaphore` channel (line 97). -/
def semaphoreCapacity : Nat := 10

/-- The body of a started goroutine (lines 125-137): the delete call and, when
it fails, the line it prints. -/
def goroutineEvents (bucketName objectKey : String) (ok : Bool) : List Event :=
  if ok then [Event.deleteObjectDone bucketName objectKey true]
  else [Event.deleteObjectDone bucketName objectKey false,
        Event.print (Line.failedToDeleteObject objectKey)]

/-- The `for _, object := range listObjectsOutput.Contents` loop (lines
121-138), `n` deletes having been started before. -/
def dispatchAll (s3 : S3Client) (bucketName : String) : Nat → List String → List Event
  | _, [] => []
  | n, objectKey :: rest =>
    Event.goDeleteObject bucketName objectKey
      :: (goroutineEvents bucketName objectKey (s3.DeleteObject bucketName n objectKey)
          ++ dispatchAll s3 bucketName (n + 1) rest)

/-- The `for` loop of lines 106-142 followed by lines 144-146.  `requests`
list requests have been sent and `started` deletes started; `input` is
`listObjectsInput.ContinuationToken`. -/
def pageLoop (s3 : S3Client) (bucketName : String) :
    Nat → Nat → Nat → Option String → Option String → Run GoError
  | 0, _, _, _, _ => ⟨[], none⟩
  | fuel + 1, requests, started, input, continuationToken =>
    let input := if continuationToken.isSome then continuationToken else input
    match s3.ListObjectsV2 bucketName requests input with
    | none =>
      ⟨[Event.listObjectsV2 bucketName input none], some GoError.unableToListObjects⟩
    | some listObjectsOutput =>
      if listObjectsOutput.Contents.length = 0 then
        ⟨[Event.listObjectsV2 bucketName input (some listObjectsOutput)], some GoError.nil⟩
      else
        let rest := pageLoop s3 bucketName fuel (requests + 1)
          (started + listObjectsOutput.Contents.length) input
          listObjectsOutput.NextContinuationToken
        ⟨Event.listObjectsV2 bucketName input (some listObjectsOutput)
            :: (dispatchAll s3 bucketName started listObjectsOutput.Contents ++ rest.trace),
          rest.result⟩

/-- Go `deleteAllObjects` (lines 95-147). -/
def deleteAllObjects (fuel : Nat) (s3 : S3Client) (bucketName : String) : Run GoError :=
  pageLoop s3 bucketName fuel 0 0 none none

/-! ## main -/

/-- Go `isSpace` of package `fmt`: the characters `fmt` takes for blanks,
by code point. -/
def isSpace (r : Char) : Bool :=
  (Nat.ble 0x9 r.toNat && Nat.ble r.toNat 0xd) || r.toNat == 0x20 || r.toNat == 0x85
    || r.toNat == 0xa0 || r.toNat == 0x1680
    || (Nat.ble 0x2000 r.toNat && Nat.ble r.toNat 0x200a)
    || (Nat.ble 0x2028 r.toNat && Nat.ble r.toNat 0x2029)
    || r.toNat == 0x202f || r.toNat == 0x205f || r.toNat == 0x3000

/-- Whether a character is the newline, code point 10. -/
def isNewline (r : Char) : Bool :=
  r.toNat == 10

/-- Go `notSpace` of package `fmt`. -/
def notSpace (r : Char) : Bool :=
  !isSpace r

/-- The check that ends `fmt.Scanln` once its argument is stored (the loop
under "Check for newline" in `doScan`): blanks are read up to and including
the newline; a character that is no blank is read too, and the call fails with
"expected newline".  The result is the input left. -/
def expectNewline : List Char → List Char
  | [] => []
  | r :: rest =>
    if isNewline r then rest
    else if isSpace r then expectNewline rest
    else rest

/-- One `fmt.Scanln(&v)` on a fresh `var v string` reading standard input:
the value left in `v` and the input left.  As in package `fmt` (`Fscanln`,
`doScan`, `convertString`, `SkipSpace`, `token`): leading blanks are skipped;
at a newline ("unexpected newline") or at the end of the input nothing is
stored, so `v` keeps its zero value; otherwise the characters up to the next
blank are stored and `expectNewline` reads on.  The error `fmt.Scanln` returns
is dropped by lines 50 and 56. -/
def Scanln : List Char → String × List Char
  | [] => ("", [])
  | r :: rest =>
    if isNewline r then ("", rest)
    else if isSpace r then Scanln rest
    else (String.mk ((r :: rest).takeWhile notSpace),
      expectNewline ((r :: rest).dropWhile notSpace))

/-- The test of lines 52 and 58. -/
def isYes (choice : String) : Bool :=
  choice == "y" || choice == "Y"

/-- The body of the `for _, bucket := range buckets` loop (lines 44-83).  The
result is the input left for the next bucket. -/
def processBucket (fuel : Nat) (s3 : S3Client) (bucketName : String)
    (stdin : List Char) : Run (List Char) :=
  let choice := Scanln stdin
  let head := [Event.print (Line.foundBucket bucketName),
    Event.print Line.askEmptyAndDelete, Event.scanln choice.1]
  if isYes choice.1 then
    let confirm := Scanln choice.2
    let head := head ++ [Event.print (Line.askAreYouSure bucketName), Event.scanln confirm.1]
    if isYes confirm.1 then
      let drain := deleteAllObjects fuel s3 bucketName
      let head := head ++ (Event.print (Line.deletingAllObjects bucketName) :: drain.trace)
      match drain.result with
      | none => ⟨head, none⟩
      | some GoError.unableToListObjects =>
        ⟨head ++ [Event.print (Line.failedToDeleteAllObjects bucketName)], some confirm.2⟩
      | some GoError.nil =>
        let ok := s3.DeleteBucket bucketName
        ⟨head ++ [Event.print Line.deletedAllObjects,
            Event.print (Line.deletingBucket bucketName),
            Event.deleteBucket bucketName ok,
            if ok then Event.print Line.deletedBucket
            else Event.print (Line.failedToDeleteBucket bucketName)],
          some confirm.2⟩
    else
      ⟨head ++ [Event.print Line.canceled], some confirm.2⟩
  else
    ⟨head ++ [Event.print Line.canceled], some choice.2⟩

/-- The `for _, bucket := range buckets` loop (lines 43-84). -/
def forBuckets (fuel : Nat) (s3 : S3Client) : List String → List Char → Run (List Char)
  | [], stdin => ⟨[], some stdin⟩
  | bucketName :: rest, stdin =>
    let first := processBucket fuel s3 bucketName stdin
    match first.result with
    | none => ⟨first.trace, none⟩
    | some stdin =>
      let others := forBuckets fuel s3 rest stdin
      ⟨first.trace ++ others.trace, others.result⟩

/-- Go `listBuckets` (lines 87-93). -/
def listBuckets (s3 : S3Client) : Option (List String) :=
  match s3.ListBuckets with
  | none => none
  | some buckets => some buckets

/-- Go `main` (lines 18-85).  `configLoaded` tells whether
`config.LoadDefaultConfig` succeeded; the result is the exit status. -/
def main (fuel : Nat) (configLoaded : Bool) (s3 : S3Client) (stdin : List Char) : Run Nat :=
  if configLoaded then
    match listBuckets s3 with
    | none => ⟨[Event.print Line.failedToListBuckets], some 1⟩
    | some buckets =>
      let loop := forBuckets fuel s3 buckets stdin
      ⟨loop.trace, loop.result.map (fun _ => 0)⟩
  else
    ⟨[Event.print Line.unableToLoadConfig], some 1⟩

/-! ## deleteAllObjects as a machine: goroutines, semaphore, WaitGroup -/

/-- Where the main goroutine of `deleteAllObjects` stands.

* `loopHead`: before line 107, first iteration.
* `dispatching rest next`: inside the `range` loop of line 121 with the
  objects `rest` of the page still to start; `next` is the page's
  `NextContinuationToken`.  With `rest = []` the next statement is line 141.
* `waiting`: at `wg.Wait()` (line 145).
* `returned err`: after `return`. -/
inductive Pc where
  | loopHead
  | dispatching (rest : List String) (next : Option String)
  | waiting
  | returned (err : GoError)
deriving DecidableEq, Repr

/-- The state of one call of `deleteAllObjects`.  `semaphore` is the number of
values in the channel, `wg` the WaitGroup counter, `inFlight` the started
goroutines that have not finished, each with its start number and key. -/
structure DrainState where
  pc : Pc
  requests : Nat
  started : Nat
  input : Option String
  continuationToken : Option String
  semaphore : Nat
  wg : Nat
  inFlight : List (Nat × String)
  trace : List Event
deriving DecidableEq, Repr

/-- The state at entry (lines 96-104). -/
def DrainState.initial : DrainState :=
  ⟨Pc.loopHead, 0, 0, none, none, 0, 0, [], []⟩

/-- The four kinds of step. -/
inductive Action where
  | fetch
  | dispatch
  | complete (i : Nat)
  | ret
deriving DecidableEq, Repr

/-- Lines 107-119 with `continuationToken` as given. -/
def fetchPage (s3 : S3Client) (bucketName : String) (s : DrainState)
    (continuationToken : Option String) : DrainState :=
  let input := if continuationToken.isSome then continuationToken else s.input
  match s3.ListObjectsV2 bucketName s.requests input with
  | none =>
    { s with
      pc := Pc.returned GoError.unableToListObjects
      requests := s.requests + 1
      input := input
      continuationToken := continuationToken
      trace := s.trace ++ [Event.listObjectsV2 bucketName input none] }
  | some listObjectsOutput =>
    { s with
      pc := if listObjectsOutput.Contents.length = 0 then Pc.waiting
        else Pc.dispatching listObjectsOutput.Contents listObjectsOutput.NextContinuationToken
      requests := s.requests + 1
      input := input
      continuationToken := continuationToken
      trace := s.trace ++ [Event.listObjectsV2 bucketName input (some listObjectsOutput)] }

/-- One step of the machine; `none` when the step cannot be taken.

* `fetch`: line 141 of the iteration that ends (if any), then lines 107-119.
* `dispatch`: lines 122-137 for the next object of the page; the send on the
  channel blocks while the channel holds `capacity` values.
* `complete i`: the `i`-th goroutine in flight finishes: its delete call
  returns, then its deferred receive from the channel and `wg.Done()` run.
* `ret`: `wg.Wait()` passes and line 146 returns nil. -/
def step (capacity : Nat) (s3 : S3Client) (bucketName : String) :
    Action → DrainState → Option DrainState
  | Action.fetch, s =>
    match s.pc with
    | Pc.loopHead => some (fetchPage s3 bucketName s s.continuationToken)
    | Pc.dispatching [] next => some (fetchPage s3 bucketName s next)
    | _ => none
  | Action.dispatch, s =>
    match s.pc with
    | Pc.dispatching (objectKey :: rest) next =>
      if s.semaphore < capacity then
        some { s with
          pc := Pc.dispatching rest next
          started := s.started + 1
          semaphore := s.semaphore + 1
          wg := s.wg + 1
          inFlight := s.inFlight ++ [(s.started, objectKey)]
          trace := s.trace ++ [Event.goDeleteObject bucketName objectKey] }
      else none
    | _ => none
  | Action.complete i, s =>
    match s.inFlight[i]? with
    | some (n, objectKey) =>
      some { s with
        semaphore := s.semaphore - 1
        wg := s.wg - 1
        inFlight := s.inFlight.eraseIdx i
        trace := s.trace
          ++ goroutineEvents bucketName objectKey (s3.DeleteObject bucketName n objectKey) }
    | none => none
  | Action.ret, s =>
    match s.pc with
    | Pc.waiting => if s.wg = 0 then some { s with pc := Pc.returned GoError.nil } else none
    | _ => none

/-- The states the machine reaches from entry. -/
inductive Reachable (capacity : Nat) (s3 : S3Client) (bucketName : String) :
    DrainState → Prop where
  | entry : Reachable capacity s3 bucketName DrainState.initial
  | next {s t : DrainState} (a : Action) :
      Reachable capacity s3 bucketName s → step capacity s3 bucketName a s = some t →
      Reachable capacity s3 bucketName t

/-! ## Reading traces -/

/-- A list request: the token sent and the answer. -/
def Event.listCall : Event → Option (Option String × Option ListObjectsV2Output)
  | Event.listObjectsV2 _ token resp => some (token, resp)
  | _ => none

/-- The key of a delete that is started. -/
def Event.deleteAttempt : Event → Option String
  | Event.goDeleteObject _ key => some key
  | _ => none

/-- The bucket passed to `DeleteBucket`. -/
def Event.removal : Event → Option String
  | Event.deleteBucket bucket _ => some bucket
  | _ => none

/-- The bucket announced by "Found bucket", the line that opens the
confirmation dialogue of lines 45-50. -/
def Event.found : Event → Option String
  | Event.print (Line.foundBucket bucket) => some bucket
  | _ => none

/-- The list requests of a trace, in order. -/
def listCalls (trace : List Event) : List (Option String × Option ListObjectsV2Output) :=
  trace.filterMap Event.listCall

/-- The keys of the deletes started, in the order started. -/
def deleteAttempts (trace : List Event) : List String :=
  trace.filterMap Event.deleteAttempt

/-- The buckets passed to `DeleteBucket`, in order. -/
def removals (trace : List Event) : List String :=
  trace.filterMap Event.removal

/-- The buckets presented to the operator, in order. -/
def presented (trace : List Event) : List String :=
  trace.filterMap Event.found

/-- Whether an event is a call to S3 about `bucket`. -/
def Event.isCallFor (bucket : String) : Event → Bool
  | Event.listObjectsV2 b _ _ => b == bucket
  | Event.goDeleteObject b _ => b == bucket
  | Event.deleteObjectDone b _ _ => b == bucket
  | Event.deleteBucket b _ => b == bucket
  | _ => false

/-- Whether an event is a statement of the main goroutine of
`deleteAllObjects`: a list request or the start of a delete. -/
def Event.isMain : Event → Bool
  | Event.listObjectsV2 _ _ _ => true
  | Event.goDeleteObject _ _ => true
  | _ => false

/-- Whether a list answer ends the loop: a failed call or an empty page. -/
def endsLoop : Option ListObjectsV2Output → Bool
  | none => true
  | some listObjectsOutput => listObjectsOutput.Contents.length = 0

/-- The keys a list answer holds. -/
def keysOf : Option ListObjectsV2Output → List String
  | none => []
  | some listObjectsOutput => listObjectsOutput.Contents

/-- The token a list request carries (lines 107-109): the token of the last
page when it had one, else what the request structure already holds. -/
def sentToken (input continuationToken : Option String) : Option String :=
  if continuationToken.isSome then continuationToken else input

/-! ## Names used in the statements -/

/-- The events of the loop body up to the call of `deleteAllObjects`. -/
def gateEvents (b : String) (stdin : List Char) : List Event :=
  [Event.print (Line.foundBucket b), Event.print Line.askEmptyAndDelete,
    Event.scanln (Scanln stdin).1, Event.print (Line.askAreYouSure b),
    Event.scanln (Scanln (Scanln stdin).2).1, Event.print (Line.deletingAllObjects b)]

/-- The events of the loop body after `deleteAllObjects` has returned nil. -/
def removalEvents (s3 : S3Client) (b : String) : List Event :=
  [Event.print Line.deletedAllObjects, Event.print (Line.deletingBucket b),
    Event.deleteBucket b (s3.DeleteBucket b),
    if s3.DeleteBucket b then Event.print Line.deletedBucket
    else Event.print (Line.failedToDeleteBucket b)]

/-- The statements of the main goroutine of `deleteAllObjects` in a trace. -/
def mainEvents (trace : List Event) : List Event :=
  trace.filter Event.isMain

/-- What the main goroutine still does from a state of the machine, as
`pageLoop` and `dispatchAll` tell it. -/
def remaining (s3 : S3Client) (bucketName : String) (fuel : Nat) (s : DrainState) :
    Run GoError :=
  match s.pc with
  | Pc.loopHead => pageLoop s3 bucketName fuel s.requests s.started s.input s.continuationToken
  | Pc.dispatching rest next =>
    ⟨dispatchAll s3 bucketName s.started rest
        ++ (pageLoop s3 bucketName fuel s.requests (s.started + rest.length) s.input next).trace,
      (pageLoop s3 bucketName fuel s.requests (s.started + rest.length) s.input next).result⟩
  | Pc.waiting => ⟨[], some GoError.nil⟩
  | Pc.returned err => ⟨[], some err⟩

/-! ## Sample services -/

/-- First page of the bucket "logs": ten keys and a continuation token. -/
def logsPage1 : ListObjectsV2Output :=
  ⟨["a0", "a1", "a2", "a3", "a4", "a5", "a6", "a7", "a8", "a9"], some "t1"⟩

/-- Second page of "logs": ten keys and a continuation token. -/
def logsPage2 : ListObjectsV2Output :=
  ⟨["b0", "b1", "b2", "b3", "b4", "b5", "b6", "b7", "b8", "b9"], some "t2"⟩

/-- Third and last page of "logs": five keys, no continuation token. -/
def logsPage3 : ListObjectsV2Output :=
  ⟨["c0", "c1", "c2", "c3", "c4"], none⟩

/-- A page without keys and without continuation token. -/
def emptyPage : ListObjectsV2Output :=
  ⟨[], none⟩

/-- The listing of "logs" while its 25 objects are all there: the page that
answers a request carrying `token`. -/
def logsPage : Option String → ListObjectsV2Output
  | none => logsPage1
  | some token => if token = "t1" then logsPage2 else logsPage3

/-- "logs" when the first delete of each key of the third page fails and the
second one succeeds: the fourth request, which repeats the token "t2", still
finds the five keys, the fifth finds nothing. -/
def logsRetried : S3Client where
  ListBuckets := some ["logs"]
  ListObjectsV2 := fun _ k token => if k < 4 then some (logsPage token) else some emptyPage
  DeleteObject := fun _ n _ => n < 20 || 25 ≤ n
  DeleteBucket := fun _ => true

/-- "logs" when every delete is refused: the 25 objects stay. -/
def logsDenied : S3Client where
  ListBuckets := some ["logs"]
  ListObjectsV2 := fun _ _ token => some (logsPage token)
  DeleteObject := fun _ _ _ => false
  DeleteBucket := fun _ => true

/-- The buckets "logs" and "archive" when every delete succeeds at once:
"logs" answers with its three pages and then with an empty page, "archive" is
empty. -/
def scenarioS3 : S3Client where
  ListBuckets := some ["logs", "archive"]
  ListObjectsV2 := fun bucket k _ =>
    if bucket = "logs" then some ([logsPage1, logsPage2, logsPage3].getD k emptyPage)
    else some emptyPage
  DeleteObject := fun _ _ _ => true
  DeleteBucket := fun _ => true

/-- The bucket "stuck" holds one object that cannot be deleted; the bucket
"next" is empty. -/
def stuckS3 : S3Client where
  ListBuckets := some ["stuck", "next"]
  ListObjectsV2 := fun bucket _ _ =>
    if bucket = "stuck" then some ⟨["a"], none⟩ else some emptyPage
  DeleteObject := fun _ _ _ => false
  DeleteBucket := fun _ => true

/-- The bucket "logs" when the second list request fails. -/
def failingS3 : S3Client where
  ListBuckets := some ["logs", "archive"]
  ListObjectsV2 := fun bucket k token =>
    if bucket = "logs" then (if k = 0 then some (logsPage token) else none)
    else some emptyPage
  DeleteObject := fun _ _ _ => true
  DeleteBucket := fun _ => false

/-- The machine after a list of steps taken in order; `none` when one of them
cannot be taken. -/
def runSteps (capacity : Nat) (s3 : S3Client) (bucketName : String) :
    List Action → DrainState → Option DrainState
  | [], s => some s
  | a :: rest, s =>
    match step capacity s3 bucketName a s with
    | none => none
    | some t => runSteps capacity s3 bucketName rest t

/-- The characters standard input holds when the operator has typed `lines`,
each ended by a newline. -/
def typed (lines : List String) : List Char :=
  lines.flatMap (fun line => line.toList ++ [Char.ofNat 10])

/-- The first word of a line: its characters after the leading blanks and up
to the next blank. -/
def firstWord (line : List Char) : String :=
  String.mk ((line.dropWhile isSpace).takeWhile notSpace)

/-- What follows the first word of a line. -/
def afterFirstWord (line : List Char) : List Char :=
  (line.dropWhile isSpace).dropWhile notSpace

/-- Both values read in the confirmation dialogue are a yes. -/
def bothYes (stdin : List Char) : Prop :=
  isYes (Scanln stdin).1 = true ∧ isYes (Scanln (Scanln stdin).2).1 = true

/-- The machine on the bucket "logs" after the first page has been fetched and
its ten objects started, none of the deletes having finished. -/
def tenStarted : DrainState where
  pc := Pc.dispatching [] (some "t1")
  requests := 1
  started := 10
  input := none
  continuationToken := none
  semaphore := 10
  wg := 10
  inFlight := logsPage1.Contents.enum
  trace := Event.listObjectsV2 "logs" none (some logsPage1)
    :: logsPage1.Contents.map (Event.goDeleteObject "logs")

/-! ## Lemmas on traces and on the page loop -/

theorem isYes_iff (choice : String) : isYes choice = true ↔ (choice = "y" ∨ choice = "Y") := by
  simp [isYes]

theorem listCalls_nil : listCalls [] = [] := rfl
theorem deleteAttempts_nil : deleteAttempts [] = [] := rfl
theorem removals_nil : removals [] = [] := rfl
theorem presented_nil : presented [] = [] := rfl

theorem listCalls_cons (e : Event) (t : List Event) :
    listCalls (e :: t) = (match e.listCall with
      | some c => c :: listCalls t
      | none => listCalls t) := by
  simp only [listCalls, List.filterMap_cons]
  cases e.listCall <;> rfl

theorem deleteAttempts_cons (e : Event) (t : List Event) :
    deleteAttempts (e :: t) = (match e.deleteAttempt with
      | some c => c :: deleteAttempts t
      | none => deleteAttempts t) := by
  simp only [deleteAttempts, List.filterMap_cons]
  cases e.deleteAttempt <;> rfl

theorem removals_cons (e : Event) (t : List Event) :
    removals (e :: t) = (match e.removal with
      | some c => c :: removals t
      | none => removals t) := by
  simp only [removals, List.filterMap_cons]
  cases e.removal <;> rfl

theorem presented_cons (e : Event) (t : List Event) :
    presented (e :: t) = (match e.found with
      | some c => c :: presented t
      | none => presented t) := by
  simp only [presented, List.filterMap_cons]
  cases e.found <;> rfl

theorem listCalls_append (a b : List Event) : listCalls (a ++ b) = listCalls a ++ listCalls b := by
  simp [listCalls]

theorem deleteAttempts_append (a b : List Event) :
    deleteAttempts (a ++ b) = deleteAttempts a ++ deleteAttempts b := by
  simp [deleteAttempts]

theorem removals_append (a b : List Event) : removals (a ++ b) = removals a ++ removals b := by
  simp [removals]

theorem presented_append (a b : List Event) :
    presented (a ++ b) = presented a ++ presented b := by
  simp [presented]

theorem deleteAttempts_goroutineEvents (b k : String) (ok : Bool) :
    deleteAttempts (goroutineEvents b k ok) = [] := by
  cases ok <;> simp [goroutineEvents, deleteAttempts, Event.deleteAttempt]

theorem listCalls_goroutineEvents (b k : String) (ok : Bool) :
    listCalls (goroutineEvents b k ok) = [] := by
  cases ok <;> simp [goroutineEvents, listCalls, Event.listCall]

theorem removals_goroutineEvents (b k : String) (ok : Bool) :
    removals (goroutineEvents b k ok) = [] := by
  cases ok <;> simp [goroutineEvents, removals, Event.removal]

theorem presented_goroutineEvents (b k : String) (ok : Bool) :
    presented (goroutineEvents b k ok) = [] := by
  cases ok <;> simp [goroutineEvents, presented, Event.found]

theorem deleteAttempts_dispatchAll (s3 : S3Client) (b : String) (n : Nat) (keys : List String) :
    deleteAttempts (dispatchAll s3 b n keys) = keys := by
  induction keys generalizing n with
  | nil => rfl
  | cons k rest ih =>
    simp [dispatchAll, deleteAttempts_cons, deleteAttempts_append, Event.deleteAttempt,
      deleteAttempts_goroutineEvents, ih]

theorem listCalls_dispatchAll (s3 : S3Client) (b : String) (n : Nat) (keys : List String) :
    listCalls (dispatchAll s3 b n keys) = [] := by
  induction keys generalizing n with
  | nil => rfl
  | cons k rest ih =>
    simp [dispatchAll, listCalls_cons, listCalls_append, Event.listCall,
      listCalls_goroutineEvents, ih]

theorem removals_dispatchAll (s3 : S3Client) (b : String) (n : Nat) (keys : List String) :
    removals (dispatchAll s3 b n keys) = [] := by
  induction keys generalizing n with
  | nil => rfl
  | cons k rest ih =>
    simp [dispatchAll, removals_cons, removals_append, Event.removal,
      removals_goroutineEvents, ih]

theorem presented_dispatchAll (s3 : S3Client) (b : String) (n : Nat) (keys : List String) :
    presented (dispatchAll s3 b n keys) = [] := by
  induction keys generalizing n with
  | nil => rfl
  | cons k rest ih =>
    simp [dispatchAll, presented_cons, presented_append, Event.found,
      presented_goroutineEvents, ih]

/-- Induction along the iterations of the loop. -/
theorem pageLoop_induction (s3 : S3Client) (b : String)
    (motive : Nat → Nat → Nat → Option String → Option String → Run GoError → Prop)
    (stop : ∀ k n input ct, motive 0 k n input ct ⟨[], none⟩)
    (fail : ∀ fuel k n input ct, s3.ListObjectsV2 b k (sentToken input ct) = none →
      motive (fuel + 1) k n input ct
        ⟨[Event.listObjectsV2 b (sentToken input ct) none], some GoError.unableToListObjects⟩)
    (empty : ∀ fuel k n input ct out, s3.ListObjectsV2 b k (sentToken input ct) = some out →
      out.Contents.length = 0 →
      motive (fuel + 1) k n input ct
        ⟨[Event.listObjectsV2 b (sentToken input ct) (some out)], some GoError.nil⟩)
    (more : ∀ fuel k n input ct out r, s3.ListObjectsV2 b k (sentToken input ct) = some out →
      out.Contents.length ≠ 0 →
      r = pageLoop s3 b fuel (k + 1) (n + out.Contents.length) (sentToken input ct)
        out.NextContinuationToken →
      motive fuel (k + 1) (n + out.Contents.length) (sentToken input ct)
        out.NextContinuationToken r →
      motive (fuel + 1) k n input ct
        ⟨Event.listObjectsV2 b (sentToken input ct) (some out)
          :: (dispatchAll s3 b n out.Contents ++ r.trace), r.result⟩)
    (fuel k n : Nat) (input ct : Option String) :
    motive fuel k n input ct (pageLoop s3 b fuel k n input ct) := by
  induction fuel generalizing k n input ct with
  | zero => exact stop k n input ct
  | succ fuel ih =>
    rw [pageLoop]
    cases h : s3.ListObjectsV2 b k (sentToken input ct) with
    | none =>
      simp only [sentToken] at h
      simp only [h]
      exact fail fuel k n input ct (by simpa [sentToken] using h)
    | some out =>
      have h2 := h
      simp only [sentToken] at h
      simp only [h]
      by_cases hc : out.Contents.length = 0
      · simp only [hc, if_true]
        exact empty fuel k n input ct out h2 hc
      · simp only [hc, if_false]
        exact more fuel k n input ct out _ h2 hc rfl (ih _ _ _ _)

/-- One iteration of the loop. -/
theorem pageLoop_succ (s3 : S3Client) (b : String) (fuel k n : Nat) (input ct : Option String) :
    pageLoop s3 b (fuel + 1) k n input ct =
      match s3.ListObjectsV2 b k (sentToken input ct) with
      | none => ⟨[Event.listObjectsV2 b (sentToken input ct) none],
          some GoError.unableToListObjects⟩
      | some out =>
        if out.Contents.length = 0 then
          ⟨[Event.listObjectsV2 b (sentToken input ct) (some out)], some GoError.nil⟩
        else
          ⟨Event.listObjectsV2 b (sentToken input ct) (some out)
            :: (dispatchAll s3 b n out.Contents
              ++ (pageLoop s3 b fuel (k + 1) (n + out.Contents.length)
                    (sentToken input ct) out.NextContinuationToken).trace),
           (pageLoop s3 b fuel (k + 1) (n + out.Contents.length)
                    (sentToken input ct) out.NextContinuationToken).result⟩ := by
  rfl

theorem listCalls_page (s3 : S3Client) (b : String) (n : Nat) (token : Option String)
    (resp : Option ListObjectsV2Output) (keys : List String) (t : List Event) :
    listCalls (Event.listObjectsV2 b token resp :: (dispatchAll s3 b n keys ++ t))
      = (token, resp) :: listCalls t := by
  simp [listCalls_cons, listCalls_append, listCalls_dispatchAll, Event.listCall]

theorem deleteAttempts_page (s3 : S3Client) (b : String) (n : Nat) (token : Option String)
    (resp : Option ListObjectsV2Output) (keys : List String) (t : List Event) :
    deleteAttempts (Event.listObjectsV2 b token resp :: (dispatchAll s3 b n keys ++ t))
      = keys ++ deleteAttempts t := by
  simp [deleteAttempts_cons, deleteAttempts_append, deleteAttempts_dispatchAll,
    Event.deleteAttempt]

theorem listCalls_single (b : String) (token : Option String)
    (resp : Option ListObjectsV2Output) :
    listCalls [Event.listObjectsV2 b token resp] = [(token, resp)] := rfl

theorem deleteAttempts_single (b : String) (token : Option String)
    (resp : Option ListObjectsV2Output) :
    deleteAttempts [Event.listObjectsV2 b token resp] = [] := rfl

theorem attempts_pageLoop (s3 : S3Client) (b : String) (fuel k n : Nat)
    (input ct : Option String) :
    deleteAttempts (pageLoop s3 b fuel k n input ct).trace
      = (listCalls (pageLoop s3 b fuel k n input ct).trace).flatMap (fun c => keysOf c.2) := by
  refine pageLoop_induction s3 b
    (fun _ _ _ _ _ r => deleteAttempts r.trace = (listCalls r.trace).flatMap (fun c => keysOf c.2))
    ?_ ?_ ?_ ?_ fuel k n input ct
  · intro k n input ct
    rfl
  · intro fuel k n input ct _
    rfl
  · intro fuel k n input ct out _ hc
    have : out.Contents = [] := List.length_eq_zero.mp hc
    simp [deleteAttempts_single, listCalls_single, keysOf, this]
  · intro fuel k n input ct out r _ _ _ ih
    simp [deleteAttempts_page, listCalls_page, ih, keysOf]

/-- How the list requests of a bounded run are laid out: every request but
the last was answered by a non-empty page; the run has returned exactly when
its last request was answered by a failure or an empty page, with the error
for a failure and nil for an empty page; a run that has not returned has sent
one request per unit of fuel. -/
theorem calls_pageLoop (s3 : S3Client) (b : String) (fuel k n : Nat)
    (input ct : Option String) :
    (listCalls (pageLoop s3 b fuel k n input ct).trace).length ≤ fuel ∧
    ((pageLoop s3 b fuel k n input ct).result = none →
      (listCalls (pageLoop s3 b fuel k n input ct).trace).length = fuel ∧
      ∀ c ∈ listCalls (pageLoop s3 b fuel k n input ct).trace, endsLoop c.2 = false) ∧
    (∀ e, (pageLoop s3 b fuel k n input ct).result = some e →
      ∃ init last, listCalls (pageLoop s3 b fuel k n input ct).trace = init ++ [last] ∧
        (∀ c ∈ init, endsLoop c.2 = false) ∧ endsLoop last.2 = true ∧
        (e = GoError.nil ↔ last.2.isSome = true)) := by
  refine pageLoop_induction s3 b
    (fun fuel _ _ _ _ r => (listCalls r.trace).length ≤ fuel ∧
      (r.result = none → (listCalls r.trace).length = fuel ∧
        ∀ c ∈ listCalls r.trace, endsLoop c.2 = false) ∧
      (∀ e, r.result = some e → ∃ init last, listCalls r.trace = init ++ [last] ∧
        (∀ c ∈ init, endsLoop c.2 = false) ∧ endsLoop last.2 = true ∧
        (e = GoError.nil ↔ last.2.isSome = true)))
    ?_ ?_ ?_ ?_ fuel k n input ct
  · intro k n input ct
    simp [listCalls_nil]
  · intro fuel k n input ct _
    refine ⟨by simp [listCalls_single], by simp, ?_⟩
    intro e he
    refine ⟨[], (sentToken input ct, none), by simp [listCalls_single], by simp, rfl, ?_⟩
    simp at he
    simp [← he]
  · intro fuel k n input ct out _ hc
    refine ⟨by simp [listCalls_single], by simp, ?_⟩
    intro e he
    refine ⟨[], (sentToken input ct, some out), by simp [listCalls_single], by simp, ?_, ?_⟩
    · simp [endsLoop, hc]
    · simp at he
      simp [← he]
  · intro fuel k n input ct out r _ hc _ ih
    obtain ⟨ih1, ih2, ih3⟩ := ih
    have hne : endsLoop (some out) = false := by simp [endsLoop, hc]
    refine ⟨by simp [listCalls_page]; omega, ?_, ?_⟩
    · intro hr
      obtain ⟨h1, h2⟩ := ih2 hr
      refine ⟨by simp [listCalls_page, h1], ?_⟩
      intro c hcm
      simp only [listCalls_page, List.mem_cons] at hcm
      rcases hcm with rfl | hcm
      · exact hne
      · exact h2 c hcm
    · intro e he
      obtain ⟨init, last, h1, h2, h3, h4⟩ := ih3 e he
      refine ⟨(sentToken input ct, some out) :: init, last, by simp [listCalls_page, h1], ?_,
        h3, h4⟩
      intro c hcm
      simp only [List.mem_cons] at hcm
      rcases hcm with rfl | hcm
      · exact hne
      · exact h2 c hcm

/-- Fuel left over after the return changes nothing. -/
theorem pageLoop_mono (s3 : S3Client) (b : String) (fuel k n : Nat)
    (input ct : Option String) (e : GoError)
    (h : (pageLoop s3 b fuel k n input ct).result = some e) (extra : Nat) :
    pageLoop s3 b (fuel + extra) k n input ct = pageLoop s3 b fuel k n input ct := by
  induction fuel generalizing k n input ct with
  | zero => simp [pageLoop] at h
  | succ fuel ih =>
    have hs : fuel + 1 + extra = (fuel + extra) + 1 := by omega
    rw [hs, pageLoop_succ, pageLoop_succ]
    rw [pageLoop_succ] at h
    cases hl : s3.ListObjectsV2 b k (sentToken input ct) with
    | none => rfl
    | some out =>
      simp only [hl] at h ⊢
      by_cases hc : out.Contents.length = 0
      · simp [hc]
      · simp only [hc, if_false] at h ⊢
        rw [ih _ _ _ _ h]

theorem takeWhile_append_stop {α : Type} (p : α → Bool) (l : List α) (a : α) (t : List α)
    (ha : p a = false) : (l ++ a :: t).takeWhile p = l.takeWhile p := by
  induction l with
  | nil => simp [List.takeWhile, ha]
  | cons x l ih =>
    by_cases hx : p x = true
    · simp [List.takeWhile, hx, ih]
    · simp [List.takeWhile, hx]

theorem dropWhile_append_stop {α : Type} (p : α → Bool) (l : List α) (a : α) (t : List α)
    (ha : p a = false) : (l ++ a :: t).dropWhile p = l.dropWhile p ++ a :: t := by
  induction l with
  | nil => simp [List.dropWhile, ha]
  | cons x l ih =>
    by_cases hx : p x = true
    · simp [List.dropWhile, hx, ih]
    · simp [List.dropWhile, hx]

theorem isNewline_newline : isNewline (Char.ofNat 10) = true := by decide

theorem notSpace_newline : notSpace (Char.ofNat 10) = false := by decide

theorem isSpace_of_isNewline (r : Char) (h : isNewline r = true) : isSpace r = true := by
  have h10 : r.toNat = 10 := by simpa [isNewline] using h
  simp [isSpace, h10]

theorem Scanln_cons (r : Char) (rest : List Char) :
    Scanln (r :: rest)
      = if isNewline r then ("", rest)
        else if isSpace r then Scanln rest
        else (String.mk ((r :: rest).takeWhile notSpace),
          expectNewline ((r :: rest).dropWhile notSpace)) := rfl

theorem expectNewline_cons (r : Char) (rest : List Char) :
    expectNewline (r :: rest)
      = if isNewline r then rest else if isSpace r then expectNewline rest else rest := rfl

/-- What `Scanln` makes of a typed line: it stores the first word of the line
and goes on after the word as `expectNewline` does. -/
theorem Scanln_line (line rest : List Char) (hline : ∀ r ∈ line, isNewline r = false) :
    Scanln (line ++ Char.ofNat 10 :: rest)
      = (firstWord line, expectNewline (afterFirstWord line ++ Char.ofNat 10 :: rest)) := by
  induction line with
  | nil =>
    rw [List.nil_append, Scanln_cons, isNewline_newline]
    simp only [if_true, firstWord, afterFirstWord, List.dropWhile, List.takeWhile,
      List.nil_append]
    rw [expectNewline_cons, isNewline_newline]
    rfl
  | cons r line ih =>
    have hr : isNewline r = false := hline r (by simp)
    have ih' := ih (fun x hx => hline x (by simp [hx]))
    rw [List.cons_append, Scanln_cons, hr]
    by_cases hs : isSpace r = true
    · simp only [hs, if_true, Bool.false_eq_true, if_false]
      rw [ih']
      simp [firstWord, afterFirstWord, List.dropWhile, hs]
    · have hs' : isSpace r = false := by simpa using hs
      simp only [hs', Bool.false_eq_true, if_false]
      have h1 := takeWhile_append_stop notSpace (r :: line) (Char.ofNat 10) rest notSpace_newline
      have h2 := dropWhile_append_stop notSpace (r :: line) (Char.ofNat 10) rest notSpace_newline
      rw [List.cons_append] at h1 h2
      rw [h1, h2]
      simp [firstWord, afterFirstWord, List.dropWhile, hs']

/-- Blanks up to the newline are read with it. -/
theorem expectNewline_blanks (blanks rest : List Char)
    (hline : ∀ r ∈ blanks, isNewline r = false) (hblank : ∀ r ∈ blanks, isSpace r = true) :
    expectNewline (blanks ++ Char.ofNat 10 :: rest) = rest := by
  induction blanks with
  | nil =>
    rw [List.nil_append, expectNewline_cons, isNewline_newline]
    rfl
  | cons r blanks ih =>
    have hr : isNewline r = false := hline r (by simp)
    have hs : isSpace r = true := hblank r (by simp)
    rw [List.cons_append, expectNewline_cons, hr, hs]
    simp only [if_true, Bool.false_eq_true, if_false]
    exact ih (fun x hx => hline x (by simp [hx])) (fun x hx => hblank x (by simp [hx]))

theorem mem_afterFirstWord (line : List Char) (r : Char) (h : r ∈ afterFirstWord line) :
    r ∈ line := by
  have h1 : r ∈ line.dropWhile isSpace := (List.dropWhile_sublist _).subset h
  exact (List.dropWhile_sublist _).subset h1

/-- A line that holds at most one word is read whole: the first word is stored
and the next read starts on the next line. -/
theorem Scanln_one_word (line rest : List Char) (hline : ∀ r ∈ line, isNewline r = false)
    (hone : ∀ r ∈ afterFirstWord line, isSpace r = true) :
    Scanln (line ++ Char.ofNat 10 :: rest) = (firstWord line, rest) := by
  rw [Scanln_line line rest hline,
    expectNewline_blanks _ rest (fun r hr => hline r (mem_afterFirstWord line r hr)) hone]

/-- Text after the blanks that follow the word: its first character is read,
the rest is left to the next read. -/
theorem expectNewline_text (blanks : List Char) (r : Char) (tail : List Char)
    (hline : ∀ x ∈ blanks, isNewline x = false) (hblank : ∀ x ∈ blanks, isSpace x = true)
    (hr : isSpace r = false) :
    expectNewline (blanks ++ r :: tail) = tail := by
  induction blanks with
  | nil =>
    have hn : isNewline r = false := by
      cases h : isNewline r with
      | false => rfl
      | true =>
        rw [isSpace_of_isNewline r h] at hr
        exact absurd hr (by simp)
    rw [List.nil_append, expectNewline_cons, hn, hr]
    rfl
  | cons x blanks ih =>
    have hx : isNewline x = false := hline x (by simp)
    have hs : isSpace x = true := hblank x (by simp)
    rw [List.cons_append, expectNewline_cons, hx, hs]
    simp only [if_true, Bool.false_eq_true, if_false]
    exact ih (fun y hy => hline y (by simp [hy])) (fun y hy => hblank y (by simp [hy]))

theorem removals_pageLoop (s3 : S3Client) (b : String) (fuel k n : Nat)
    (input ct : Option String) :
    removals (pageLoop s3 b fuel k n input ct).trace = [] := by
  refine pageLoop_induction s3 b (fun _ _ _ _ _ r => removals r.trace = [])
    ?_ ?_ ?_ ?_ fuel k n input ct
  · intro k n input ct
    rfl
  · intro fuel k n input ct _
    rfl
  · intro fuel k n input ct out _ _
    rfl
  · intro fuel k n input ct out r _ _ _ ih
    simp [removals_cons, removals_append, removals_dispatchAll, Event.removal, ih]

theorem presented_pageLoop (s3 : S3Client) (b : String) (fuel k n : Nat)
    (input ct : Option String) :
    presented (pageLoop s3 b fuel k n input ct).trace = [] := by
  refine pageLoop_induction s3 b (fun _ _ _ _ _ r => presented r.trace = [])
    ?_ ?_ ?_ ?_ fuel k n input ct
  · intro k n input ct
    rfl
  · intro fuel k n input ct _
    rfl
  · intro fuel k n input ct out _ _
    rfl
  · intro fuel k n input ct out r _ _ _ ih
    simp [presented_cons, presented_append, presented_dispatchAll, Event.found, ih]

/-- A drain with fuel starts with a list request for its bucket. -/
theorem pageLoop_head (s3 : S3Client) (b : String) (fuel k n : Nat)
    (input ct : Option String) :
    ∃ resp rest, (pageLoop s3 b (fuel + 1) k n input ct).trace
      = Event.listObjectsV2 b (sentToken input ct) resp :: rest := by
  rw [pageLoop_succ]
  cases s3.ListObjectsV2 b k (sentToken input ct) with
  | none => exact ⟨_, _, rfl⟩
  | some out =>
    by_cases hc : out.Contents.length = 0
    · simp only [hc, if_true]
      exact ⟨_, _, rfl⟩
    · simp only [hc, if_false]
      exact ⟨_, _, rfl⟩

/-- The loop body when the first answer is not a yes. -/
theorem processBucket_declined (fuel : Nat) (s3 : S3Client) (b : String) (stdin : List Char)
    (h : isYes (Scanln stdin).1 = false) :
    processBucket fuel s3 b stdin
      = ⟨[Event.print (Line.foundBucket b), Event.print Line.askEmptyAndDelete,
          Event.scanln (Scanln stdin).1, Event.print Line.canceled], some (Scanln stdin).2⟩ := by
  simp [processBucket, h]

/-- The loop body when the first answer is a yes and the second is not. -/
theorem processBucket_unconfirmed (fuel : Nat) (s3 : S3Client) (b : String)
    (stdin : List Char) (h1 : isYes (Scanln stdin).1 = true)
    (h2 : isYes (Scanln (Scanln stdin).2).1 = false) :
    processBucket fuel s3 b stdin
      = ⟨[Event.print (Line.foundBucket b), Event.print Line.askEmptyAndDelete,
          Event.scanln (Scanln stdin).1, Event.print (Line.askAreYouSure b),
          Event.scanln (Scanln (Scanln stdin).2).1, Event.print Line.canceled],
        some (Scanln (Scanln stdin).2).2⟩ := by
  simp [processBucket, h1, h2]

/-- The loop body when both answers are a yes. -/
theorem processBucket_confirmed (fuel : Nat) (s3 : S3Client) (b : String)
    (stdin : List Char) (h1 : isYes (Scanln stdin).1 = true)
    (h2 : isYes (Scanln (Scanln stdin).2).1 = true) :
    processBucket fuel s3 b stdin
      = match (deleteAllObjects fuel s3 b).result with
        | none => ⟨gateEvents b stdin ++ (deleteAllObjects fuel s3 b).trace, none⟩
        | some GoError.unableToListObjects =>
          ⟨gateEvents b stdin ++ (deleteAllObjects fuel s3 b).trace
            ++ [Event.print (Line.failedToDeleteAllObjects b)], some (Scanln (Scanln stdin).2).2⟩
        | some GoError.nil =>
          ⟨gateEvents b stdin ++ (deleteAllObjects fuel s3 b).trace ++ removalEvents s3 b,
            some (Scanln (Scanln stdin).2).2⟩ := by
  simp only [processBucket, h1, h2, if_true, gateEvents, removalEvents]
  cases (deleteAllObjects fuel s3 b).result with
  | none => simp
  | some e => cases e <;> simp

/-- The tokens the requests of the loop carry. -/
theorem tokens_pageLoop (s3 : S3Client) (b : String) (fuel k n : Nat)
    (input ct : Option String) :
    (∀ c, (listCalls (pageLoop s3 b fuel k n input ct).trace)[0]? = some c →
      c.1 = sentToken input ct) ∧
    (∀ i c1 c2, (listCalls (pageLoop s3 b fuel k n input ct).trace)[i]? = some c1 →
      (listCalls (pageLoop s3 b fuel k n input ct).trace)[i + 1]? = some c2 →
      ∃ page, c1.2 = some page ∧ page.Contents ≠ [] ∧
        c2.1 = sentToken c1.1 page.NextContinuationToken) := by
  refine pageLoop_induction s3 b
    (fun _ _ _ input ct r =>
      (∀ c, (listCalls r.trace)[0]? = some c → c.1 = sentToken input ct) ∧
      (∀ i c1 c2, (listCalls r.trace)[i]? = some c1 → (listCalls r.trace)[i + 1]? = some c2 →
        ∃ page, c1.2 = some page ∧ page.Contents ≠ [] ∧
          c2.1 = sentToken c1.1 page.NextContinuationToken))
    ?_ ?_ ?_ ?_ fuel k n input ct
  · intro k n input ct
    simp [listCalls_nil]
  · intro fuel k n input ct _
    refine ⟨?_, ?_⟩
    · intro c hc
      simp [listCalls_single] at hc
      simp [← hc]
    · intro i c1 c2 _ h2
      simp [listCalls_single] at h2
  · intro fuel k n input ct out _ _
    refine ⟨?_, ?_⟩
    · intro c hc
      simp [listCalls_single] at hc
      simp [← hc]
    · intro i c1 c2 _ h2
      simp [listCalls_single] at h2
  · intro fuel k n input ct out r _ hne _ ih
    obtain ⟨ih1, ih2⟩ := ih
    refine ⟨?_, ?_⟩
    · intro c hc
      simp [listCalls_page] at hc
      simp [← hc]
    · intro i c1 c2 h1 h2
      rw [listCalls_page] at h1 h2
      cases i with
      | zero =>
        simp at h1 h2
        subst h1
        refine ⟨out, rfl, ?_, ih1 c2 h2⟩
        intro h
        exact hne (by simp [h])
      | succ i =>
        simp only [List.getElem?_cons_succ] at h1 h2
        exact ih2 i c1 c2 h1 h2

/-- A request answered by a failure or an empty page is the last of its run,
and the run has returned. -/
theorem last_call_pageLoop (s3 : S3Client) (b : String) (fuel k n : Nat)
    (input ct : Option String) (i : Nat) (c : Option String × Option ListObjectsV2Output)
    (h : (listCalls (pageLoop s3 b fuel k n input ct).trace)[i]? = some c)
    (hc : endsLoop c.2 = true) :
    (listCalls (pageLoop s3 b fuel k n input ct).trace).length = i + 1 ∧
    ∃ e, (pageLoop s3 b fuel k n input ct).result = some e ∧
      (e = GoError.nil ↔ c.2.isSome = true) := by
  obtain ⟨_, hnone, hsome⟩ := calls_pageLoop s3 b fuel k n input ct
  cases hr : (pageLoop s3 b fuel k n input ct).result with
  | none =>
    have := (hnone hr).2 _ (List.getElem?_mem h)
    rw [hc] at this
    exact absurd this (by simp)
  | some e =>
    obtain ⟨init, last, hcs, hinit, _, he⟩ := hsome e hr
    rw [hcs] at h ⊢
    have hi : i = init.length := by
      by_contra hne
      have hlt : i < (init ++ [last]).length := by
        by_contra hge
        rw [List.getElem?_eq_none (by omega)] at h
        exact absurd h (by simp)
      have hlt2 : i < init.length := by
        simp at hlt
        omega
      rw [List.getElem?_append_left hlt2] at h
      have := hinit _ (List.getElem?_mem h)
      rw [hc] at this
      exact absurd this (by simp)
    subst hi
    simp at h
    subst h
    exact ⟨by simp, e, rfl, he⟩

/-- A request answered by a non-empty page is followed by another request when
fuel is left. -/
theorem next_call_pageLoop (s3 : S3Client) (b : String) (fuel k n : Nat)
    (input ct : Option String) (i : Nat) (c : Option String × Option ListObjectsV2Output)
    (h : (listCalls (pageLoop s3 b fuel k n input ct).trace)[i]? = some c)
    (hc : endsLoop c.2 = false) (hi : i + 1 < fuel) :
    ((listCalls (pageLoop s3 b fuel k n input ct).trace)[i + 1]?).isSome = true := by
  obtain ⟨_, hnone, hsome⟩ := calls_pageLoop s3 b fuel k n input ct
  have hlt : i < (listCalls (pageLoop s3 b fuel k n input ct).trace).length := by
    by_contra hge
    rw [List.getElem?_eq_none (by omega)] at h
    exact absurd h (by simp)
  suffices hs : i + 1 < (listCalls (pageLoop s3 b fuel k n input ct).trace).length by
    rw [List.getElem?_eq_getElem hs]
    rfl
  cases hr : (pageLoop s3 b fuel k n input ct).result with
  | none =>
    rw [(hnone hr).1]
    exact hi
  | some e =>
    obtain ⟨init, last, hcs, _, hlast, _⟩ := hsome e hr
    rw [hcs] at h hlt ⊢
    have hne : i ≠ init.length := by
      intro heq
      subst heq
      simp at h
      subst h
      rw [hlast] at hc
      exact absurd hc (by simp)
    simp at hlt ⊢
    omega

/-- An answer that ends the loop whatever the token, `j` requests ahead, makes
the loop return within `j + 1` iterations. -/
theorem pageLoop_returns (s3 : S3Client) (b : String) (j k n : Nat)
    (input ct : Option String)
    (h : ∀ token, endsLoop (s3.ListObjectsV2 b (k + j) token) = true) :
    (pageLoop s3 b (j + 1) k n input ct).result.isSome = true := by
  induction j generalizing k n input ct with
  | zero =>
    rw [pageLoop_succ]
    have h0 := h (sentToken input ct)
    cases hl : s3.ListObjectsV2 b k (sentToken input ct) with
    | none => rfl
    | some out =>
      rw [Nat.add_zero, hl] at h0
      have : out.Contents.length = 0 := by simpa [endsLoop] using h0
      simp [this]
  | succ j ih =>
    rw [pageLoop_succ]
    cases hl : s3.ListObjectsV2 b k (sentToken input ct) with
    | none => rfl
    | some out =>
      by_cases hc : out.Contents.length = 0
      · simp [hc]
      · simp only [hc, if_false]
        apply ih
        intro token
        have := h token
        rwa [show k + (j + 1) = k + 1 + j by omega] at this

/-- A loop whose requests are answered, whatever the token, by the non-empty
pages `pages` in order and then by an empty page. -/
theorem pageLoop_scripted (s3 : S3Client) (b : String) (pages : List ListObjectsV2Output)
    (fuel k n : Nat) (input ct : Option String)
    (hne : ∀ page ∈ pages, page.Contents ≠ [])
    (hans : ∀ j page token, pages[j]? = some page → s3.ListObjectsV2 b (k + j) token = some page)
    (hlast : ∀ token, ∃ page, s3.ListObjectsV2 b (k + pages.length) token = some page
      ∧ page.Contents = [])
    (hfuel : pages.length < fuel) :
    (pageLoop s3 b fuel k n input ct).result = some GoError.nil ∧
    deleteAttempts (pageLoop s3 b fuel k n input ct).trace
      = pages.flatMap (fun page => page.Contents) ∧
    (listCalls (pageLoop s3 b fuel k n input ct).trace).length = pages.length + 1 := by
  induction pages generalizing fuel k n input ct with
  | nil =>
    obtain ⟨fuel, rfl⟩ : ∃ f, fuel = f + 1 := ⟨fuel - 1, by simp at hfuel; omega⟩
    obtain ⟨page, hp, hempty⟩ := hlast (sentToken input ct)
    simp only [List.length_nil, Nat.add_zero] at hp
    rw [pageLoop_succ, hp]
    simp [hempty, deleteAttempts_single, listCalls_single]
  | cons page rest ih =>
    obtain ⟨fuel, rfl⟩ : ∃ f, fuel = f + 1 := ⟨fuel - 1, by simp at hfuel; omega⟩
    have hp := hans 0 page (sentToken input ct) (by simp)
    simp only [Nat.add_zero] at hp
    have hlen : page.Contents.length ≠ 0 := by
      intro h
      exact hne page (by simp) (List.length_eq_zero.mp h)
    rw [pageLoop_succ, hp]
    simp only [hlen, if_false]
    have := ih fuel (k + 1) (n + page.Contents.length) (sentToken input ct)
      page.NextContinuationToken
      (fun p hpm => hne p (by simp [hpm]))
      (fun j p token hj => by
        have := hans (j + 1) p token (by simpa using hj)
        rwa [show k + (j + 1) = k + 1 + j by omega] at this)
      (fun token => by
        obtain ⟨p, hp1, hp2⟩ := hlast token
        refine ⟨p, ?_, hp2⟩
        rwa [show k + (page :: rest).length = k + 1 + rest.length by simp; omega] at hp1)
      (by simp at hfuel; omega)
    obtain ⟨h1, h2, h3⟩ := this
    refine ⟨h1, ?_, ?_⟩
    · simp [deleteAttempts_page, h2]
    · simp [listCalls_page, h3]

/-- A loop whose every request is answered by a non-empty page never returns. -/
theorem pageLoop_never_returns (s3 : S3Client) (b : String)
    (h : ∀ k token, endsLoop (s3.ListObjectsV2 b k token) = false)
    (fuel k n : Nat) (input ct : Option String) :
    (pageLoop s3 b fuel k n input ct).result = none := by
  induction fuel generalizing k n input ct with
  | zero => rfl
  | succ fuel ih =>
    rw [pageLoop_succ]
    have h0 := h k (sentToken input ct)
    cases hl : s3.ListObjectsV2 b k (sentToken input ct) with
    | none =>
      rw [hl] at h0
      exact absurd h0 (by simp [endsLoop])
    | some out =>
      rw [hl] at h0
      have : out.Contents.length ≠ 0 := by simpa [endsLoop] using h0
      simp only [this, if_false]
      exact ih _ _ _ _

theorem mainEvents_append (a b : List Event) :
    mainEvents (a ++ b) = mainEvents a ++ mainEvents b := by
  simp [mainEvents]

theorem mainEvents_goroutineEvents (b k : String) (ok : Bool) :
    mainEvents (goroutineEvents b k ok) = [] := by
  cases ok <;> rfl

theorem deleteAttempts_mainEvents (t : List Event) :
    deleteAttempts (mainEvents t) = deleteAttempts t := by
  induction t with
  | nil => rfl
  | cons e t ih =>
    cases e <;>
      simp [mainEvents, Event.isMain, deleteAttempts_cons, Event.deleteAttempt] <;>
      simpa [mainEvents] using ih

theorem listCalls_mainEvents (t : List Event) :
    listCalls (mainEvents t) = listCalls t := by
  induction t with
  | nil => rfl
  | cons e t ih =>
    cases e <;>
      simp [mainEvents, Event.isMain, listCalls_cons, Event.listCall] <;>
      simpa [mainEvents] using ih

/-- The semaphore and the WaitGroup count the goroutines in flight, and the
semaphore never holds more than its capacity. -/
theorem Reachable.counters {capacity : Nat} {s3 : S3Client} {b : String} {s : DrainState}
    (h : Reachable capacity s3 b s) :
    s.semaphore = s.inFlight.length ∧ s.wg = s.inFlight.length ∧ s.semaphore ≤ capacity := by
  induction h with
  | entry => simp [DrainState.initial]
  | @next s t a _ hstep ih =>
    obtain ⟨ih1, ih2, ih3⟩ := ih
    cases a with
    | fetch =>
      simp only [step] at hstep
      split at hstep
      · simp only [Option.some.injEq] at hstep
        subst hstep
        simp only [fetchPage]
        split <;> exact ⟨ih1, ih2, ih3⟩
      · simp only [Option.some.injEq] at hstep
        subst hstep
        simp only [fetchPage]
        split <;> exact ⟨ih1, ih2, ih3⟩
      · exact absurd hstep (by simp)
    | dispatch =>
      simp only [step] at hstep
      split at hstep
      · split at hstep
        · simp only [Option.some.injEq] at hstep
          subst hstep
          simp
          omega
        · exact absurd hstep (by simp)
      · exact absurd hstep (by simp)
    | complete i =>
      simp only [step] at hstep
      split at hstep
      · rename_i n key hget
        simp only [Option.some.injEq] at hstep
        subst hstep
        have hlt : i < s.inFlight.length := by
          by_contra hge
          rw [List.getElem?_eq_none (by omega)] at hget
          exact absurd hget (by simp)
        simp [List.length_eraseIdx, hlt]
        omega
      · exact absurd hstep (by simp)
    | ret =>
      simp only [step] at hstep
      split at hstep
      · split at hstep
        · simp only [Option.some.injEq] at hstep
          subst hstep
          exact ⟨ih1, ih2, ih3⟩
        · exact absurd hstep (by simp)
      · exact absurd hstep (by simp)

/-- After `return nil` no goroutine is left. -/
theorem Reachable.joined {capacity : Nat} {s3 : S3Client} {b : String} {s : DrainState}
    (h : Reachable capacity s3 b s) (hpc : s.pc = Pc.returned GoError.nil) :
    s.wg = 0 ∧ s.inFlight = [] := by
  suffices hw : s.wg = 0 by
    have := h.counters.2.1
    exact ⟨hw, List.length_eq_zero.mp (by omega)⟩
  induction h with
  | entry => simp [DrainState.initial] at hpc
  | @next s t a _ hstep ih =>
    cases a with
    | fetch =>
      simp only [step] at hstep
      split at hstep
      · simp only [Option.some.injEq] at hstep
        subst hstep
        simp only [fetchPage] at hpc
        split at hpc
        · simp at hpc
        · simp only at hpc
          split at hpc <;> simp at hpc
      · simp only [Option.some.injEq] at hstep
        subst hstep
        simp only [fetchPage] at hpc
        split at hpc
        · simp at hpc
        · simp only at hpc
          split at hpc <;> simp at hpc
      · exact absurd hstep (by simp)
    | dispatch =>
      simp only [step] at hstep
      split at hstep
      · split at hstep
        · simp only [Option.some.injEq] at hstep
          subst hstep
          simp at hpc
        · exact absurd hstep (by simp)
      · exact absurd hstep (by simp)
    | complete i =>
      simp only [step] at hstep
      split at hstep
      · simp only [Option.some.injEq] at hstep
        subst hstep
        have := ih hpc
        simp [this]
      · exact absurd hstep (by simp)
    | ret =>
      simp only [step] at hstep
      split at hstep
      · split at hstep
        · rename_i hw
          simp only [Option.some.injEq] at hstep
          subst hstep
          exact hw
        · exact absurd hstep (by simp)
      · exact absurd hstep (by simp)

/-- The main goroutine of the machine follows `deleteAllObjects`: what it has
done and what `remaining` says it still does make up the bounded run. -/
theorem Reachable.follows {capacity : Nat} {s3 : S3Client} {b : String} {s : DrainState}
    (h : Reachable capacity s3 b s) (fuel : Nat) :
    mainEvents (deleteAllObjects (s.requests + fuel) s3 b).trace
      = mainEvents s.trace ++ mainEvents (remaining s3 b fuel s).trace ∧
    (deleteAllObjects (s.requests + fuel) s3 b).result = (remaining s3 b fuel s).result := by
  induction h generalizing fuel with
  | entry =>
    simp [DrainState.initial, remaining, deleteAllObjects, mainEvents]
  | @next s t a _ hstep ih =>
    cases a with
    | fetch =>
      have key : ∀ ct, (∀ fuel, remaining s3 b fuel s
            = ⟨(pageLoop s3 b fuel s.requests s.started s.input ct).trace,
                (pageLoop s3 b fuel s.requests s.started s.input ct).result⟩) →
          mainEvents (deleteAllObjects ((fetchPage s3 b s ct).requests + fuel) s3 b).trace
            = mainEvents (fetchPage s3 b s ct).trace
              ++ mainEvents (remaining s3 b fuel (fetchPage s3 b s ct)).trace ∧
          (deleteAllObjects ((fetchPage s3 b s ct).requests + fuel) s3 b).result
            = (remaining s3 b fuel (fetchPage s3 b s ct)).result := by
        intro ct hrem
        have hreq : (fetchPage s3 b s ct).requests + fuel = s.requests + (fuel + 1) := by
          simp only [fetchPage]
          split <;> simp <;> omega
        obtain ⟨ih1, ih2⟩ := ih (fuel + 1)
        rw [hreq, ih1, ih2, hrem (fuel + 1), pageLoop_succ]
        simp only [fetchPage, sentToken]
        cases hl : s3.ListObjectsV2 b s.requests (if ct.isSome = true then ct else s.input) with
        | none =>
          simp [remaining, mainEvents, Event.isMain]
        | some out =>
          by_cases hc : out.Contents.length = 0
          · simp [hc, remaining, mainEvents, Event.isMain]
          · simp [hc, remaining, mainEvents, Event.isMain]
      simp only [step] at hstep
      split at hstep
      · rename_i hpc
        simp only [Option.some.injEq] at hstep
        subst hstep
        exact key s.continuationToken (fun fuel => by simp [remaining, hpc])
      · rename_i next hpc
        simp only [Option.some.injEq] at hstep
        subst hstep
        exact key next (fun fuel => by simp [remaining, hpc, dispatchAll])
      · exact absurd hstep (by simp)
    | dispatch =>
      simp only [step] at hstep
      split at hstep
      · rename_i key rest next hpc
        split at hstep
        · simp only [Option.some.injEq] at hstep
          subst hstep
          obtain ⟨ih1, ih2⟩ := ih fuel
          simp only [remaining, hpc] at ih1 ih2
          simp only [remaining]
          have hlen : s.started + (key :: rest).length = s.started + 1 + rest.length := by
            simp
            omega
          rw [hlen] at ih1 ih2
          refine ⟨?_, ih2⟩
          rw [ih1]
          have hd : mainEvents (dispatchAll s3 b s.started (key :: rest))
              = Event.goDeleteObject b key :: mainEvents (dispatchAll s3 b (s.started + 1) rest) := by
            rw [dispatchAll, ← List.singleton_append, mainEvents_append, mainEvents_append,
              mainEvents_goroutineEvents]
            rfl
          have hg : mainEvents [Event.goDeleteObject b key] = [Event.goDeleteObject b key] := rfl
          simp only [mainEvents_append, hd, hg, List.append_assoc, List.singleton_append,
            List.cons_append, List.nil_append]
        · exact absurd hstep (by simp)
      · exact absurd hstep (by simp)
    | complete i =>
      simp only [step] at hstep
      split at hstep
      · simp only [Option.some.injEq] at hstep
        subst hstep
        obtain ⟨ih1, ih2⟩ := ih fuel
        refine ⟨?_, ?_⟩
        · simp only [mainEvents_append, mainEvents_goroutineEvents, List.append_nil]
          rw [ih1]
          rfl
        · rw [ih2]
          rfl
      · exact absurd hstep (by simp)
    | ret =>
      simp only [step] at hstep
      split at hstep
      · rename_i hpc
        split at hstep
        · simp only [Option.some.injEq] at hstep
          subst hstep
          obtain ⟨ih1, ih2⟩ := ih fuel
          simp only [remaining, hpc] at ih1 ih2
          simp only [remaining]
          exact ⟨ih1, ih2⟩
        · exact absurd hstep (by simp)
      · exact absurd hstep (by simp)

/-- When the machine has returned, its list requests, the deletes it started
and its result are those of a bounded run of `deleteAllObjects`. -/
theorem Reachable.returned_as_run {capacity : Nat} {s3 : S3Client} {b : String}
    {s : DrainState} (h : Reachable capacity s3 b s) (err : GoError)
    (hpc : s.pc = Pc.returned err) :
    ∃ f, listCalls s.trace = listCalls (deleteAllObjects f s3 b).trace ∧
      deleteAttempts s.trace = deleteAttempts (deleteAllObjects f s3 b).trace ∧
      (deleteAllObjects f s3 b).result = some err := by
  obtain ⟨hm, hr⟩ := h.follows 0
  simp only [remaining, hpc, mainEvents, List.filter_nil, List.append_nil] at hm hr
  refine ⟨s.requests + 0, ?_, ?_, hr⟩
  · have h1 := listCalls_mainEvents s.trace
    have h2 := listCalls_mainEvents (deleteAllObjects (s.requests + 0) s3 b).trace
    rw [mainEvents] at h1 h2
    rw [← h1, ← h2, hm]
  · have h1 := deleteAttempts_mainEvents s.trace
    have h2 := deleteAttempts_mainEvents (deleteAllObjects (s.requests + 0) s3 b).trace
    rw [mainEvents] at h1 h2
    rw [← h1, ← h2, hm]

theorem fetchPage_fail (s3 : S3Client) (b : String) (s : DrainState) (ct : Option String)
    (h : s3.ListObjectsV2 b s.requests (sentToken s.input ct) = none) :
    fetchPage s3 b s ct = { s with
      pc := Pc.returned GoError.unableToListObjects
      requests := s.requests + 1
      input := sentToken s.input ct
      continuationToken := ct
      trace := s.trace ++ [Event.listObjectsV2 b (sentToken s.input ct) none] } := by
  simp only [sentToken] at h
  simp [fetchPage, sentToken, h]

theorem fetchPage_page (s3 : S3Client) (b : String) (s : DrainState) (ct : Option String)
    (out : ListObjectsV2Output)
    (h : s3.ListObjectsV2 b s.requests (sentToken s.input ct) = some out) :
    fetchPage s3 b s ct = { s with
      pc := if out.Contents.length = 0 then Pc.waiting
        else Pc.dispatching out.Contents out.NextContinuationToken
      requests := s.requests + 1
      input := sentToken s.input ct
      continuationToken := ct
      trace := s.trace ++ [Event.listObjectsV2 b (sentToken s.input ct) (some out)] } := by
  simp only [sentToken] at h
  simp [fetchPage, sentToken, h]

/-- With room for one goroutine the objects of a page can all be started and
finished, one after the other. -/
theorem Reachable.dispatches {capacity : Nat} {s3 : S3Client} {b : String}
    (hcap : 1 ≤ capacity) (rest : List String) (next : Option String) (s : DrainState)
    (h : Reachable capacity s3 b s) (hpc : s.pc = Pc.dispatching rest next)
    (hidle : s.inFlight = []) :
    ∃ u, Reachable capacity s3 b u ∧ u.pc = Pc.dispatching [] next ∧ u.inFlight = [] ∧
      u.requests = s.requests ∧ u.started = s.started + rest.length ∧ u.input = s.input := by
  induction rest generalizing s with
  | nil => exact ⟨s, h, hpc, hidle, rfl, rfl, rfl⟩
  | cons key rest ih =>
    have hsem : s.semaphore < capacity := by
      have := h.counters.1
      rw [hidle] at this
      simp at this
      omega
    have h1 : Reachable capacity s3 b { s with
        pc := Pc.dispatching rest next
        started := s.started + 1
        semaphore := s.semaphore + 1
        wg := s.wg + 1
        inFlight := s.inFlight ++ [(s.started, key)]
        trace := s.trace ++ [Event.goDeleteObject b key] } :=
      Reachable.next Action.dispatch h (by simp [step, hpc, hsem])
    have h2 := Reachable.next (Action.complete 0) h1 (t := { s with
        pc := Pc.dispatching rest next
        started := s.started + 1
        semaphore := s.semaphore + 1 - 1
        wg := s.wg + 1 - 1
        inFlight := []
        trace := s.trace ++ [Event.goDeleteObject b key]
          ++ goroutineEvents b key (s3.DeleteObject b s.started key) })
      (by simp [step, hidle])
    obtain ⟨u, hu, hu1, hu2, hu3, hu4, hu5⟩ := ih _ h2 rfl rfl
    refine ⟨u, hu, hu1, hu2, hu3, ?_, hu5⟩
    rw [hu4]
    simp
    omega

/-- With room for one goroutine the machine can return whenever the bounded
run returns. -/
theorem Reachable.returns {capacity : Nat} {s3 : S3Client} {b : String}
    (hcap : 1 ≤ capacity) (fuel : Nat) (s : DrainState) (ct : Option String)
    (h : Reachable capacity s3 b s)
    (hpc : (s.pc = Pc.loopHead ∧ ct = s.continuationToken) ∨ s.pc = Pc.dispatching [] ct)
    (hidle : s.inFlight = []) (e : GoError)
    (hres : (pageLoop s3 b fuel s.requests s.started s.input ct).result = some e) :
    ∃ t, Reachable capacity s3 b t ∧ t.pc = Pc.returned e := by
  induction fuel generalizing s ct with
  | zero => simp [pageLoop] at hres
  | succ fuel ih =>
    have hfetch : Reachable capacity s3 b (fetchPage s3 b s ct) := by
      rcases hpc with ⟨hpc, hct⟩ | hpc
      · exact Reachable.next Action.fetch h (by simp [step, hpc, hct])
      · exact Reachable.next Action.fetch h (by simp [step, hpc])
    rw [pageLoop_succ] at hres
    cases hl : s3.ListObjectsV2 b s.requests (sentToken s.input ct) with
    | none =>
      rw [hl] at hres
      simp only [Option.some.injEq] at hres
      rw [fetchPage_fail s3 b s ct hl] at hfetch
      exact ⟨_, hfetch, by simp [← hres]⟩
    | some out =>
      rw [hl] at hres
      rw [fetchPage_page s3 b s ct out hl] at hfetch
      by_cases hc : out.Contents.length = 0
      · simp only [hc, if_true, Option.some.injEq] at hres hfetch
        have hwg : s.wg = 0 := by
          have := h.counters.2.1
          rw [hidle] at this
          simpa using this
        refine ⟨_, Reachable.next Action.ret hfetch (by simp [step, hwg]; rfl), ?_⟩
        simp [← hres]
      · simp only [hc, if_false] at hres hfetch
        obtain ⟨u, hu, hu1, hu2, hu3, hu4, hu5⟩ :=
          Reachable.dispatches hcap out.Contents out.NextContinuationToken _ hfetch rfl hidle
        apply ih u out.NextContinuationToken hu (Or.inr hu1) hu2
        rw [hu3, hu4, hu5]
        exact hres

theorem Reachable.runSteps {capacity : Nat} {s3 : S3Client} {b : String}
    (actions : List Action) (s t : DrainState) (h : Reachable capacity s3 b s)
    (hrun : DeleteBucket.runSteps capacity s3 b actions s = some t) :
    Reachable capacity s3 b t := by
  induction actions generalizing s with
  | nil =>
    simp only [DeleteBucket.runSteps, Option.some.injEq] at hrun
    exact hrun ▸ h
  | cons a rest ih =>
    simp only [DeleteBucket.runSteps] at hrun
    cases hs : step capacity s3 b a s with
    | none => simp [hs] at hrun
    | some u =>
      rw [hs] at hrun
      exact ih u (Reachable.next a h hs) hrun

theorem removals_gateEvents (b : String) (stdin : List Char) :
    removals (gateEvents b stdin) = [] := rfl

theorem removals_removalEvents (s3 : S3Client) (b : String) :
    removals (removalEvents s3 b) = [b] := by
  simp only [removalEvents]
  cases s3.DeleteBucket b <;> rfl

theorem listCalls_removalEvents (s3 : S3Client) (b : String) :
    listCalls (removalEvents s3 b) = [] := by
  simp only [removalEvents]
  cases s3.DeleteBucket b <;> rfl

theorem deleteAttempts_removalEvents (s3 : S3Client) (b : String) :
    deleteAttempts (removalEvents s3 b) = [] := by
  simp only [removalEvents]
  cases s3.DeleteBucket b <;> rfl

/-- The `DeleteBucket` calls of the loop body are decided by the two answers
and the result of the drain. -/
theorem removals_processBucket (fuel : Nat) (s3 : S3Client) (b : String) (stdin : List Char) :
    removals (processBucket fuel s3 b stdin).trace
      = if isYes (Scanln stdin).1 = true ∧ isYes (Scanln (Scanln stdin).2).1 = true ∧
          (deleteAllObjects fuel s3 b).result = some GoError.nil then [b] else [] := by
  have hd : removals (deleteAllObjects fuel s3 b).trace = [] :=
    removals_pageLoop s3 b fuel 0 0 none none
  by_cases h1 : isYes (Scanln stdin).1 = true
  · by_cases h2 : isYes (Scanln (Scanln stdin).2).1 = true
    · rw [processBucket_confirmed _ _ _ _ h1 h2]
      cases hr : (deleteAllObjects fuel s3 b).result with
      | none =>
        simp [removals_append, hd, removals_gateEvents, h1, h2]
      | some e =>
        cases e with
        | nil =>
          simp [removals_append, hd, removals_gateEvents, removals_removalEvents, h1, h2]
        | unableToListObjects =>
          simp [removals_append, hd, removals_gateEvents, h1, h2]
          rfl
    · rw [processBucket_unconfirmed _ _ _ _ h1 (by simpa using h2)]
      simp [h2]
      rfl
  · rw [processBucket_declined _ _ _ _ (by simpa using h1)]
    simp [h1]
    rfl

theorem presented_gateEvents (b : String) (stdin : List Char) :
    presented (gateEvents b stdin) = [b] := rfl

theorem presented_removalEvents (s3 : S3Client) (b : String) :
    presented (removalEvents s3 b) = [] := by
  simp only [removalEvents]
  cases s3.DeleteBucket b <;> rfl

/-- The loop body presents its bucket, once. -/
theorem presented_processBucket (fuel : Nat) (s3 : S3Client) (b : String)
    (stdin : List Char) :
    presented (processBucket fuel s3 b stdin).trace = [b] := by
  have hd : presented (deleteAllObjects fuel s3 b).trace = [] :=
    presented_pageLoop s3 b fuel 0 0 none none
  by_cases h1 : isYes (Scanln stdin).1 = true
  · by_cases h2 : isYes (Scanln (Scanln stdin).2).1 = true
    · rw [processBucket_confirmed _ _ _ _ h1 h2]
      cases hr : (deleteAllObjects fuel s3 b).result with
      | none => simp [presented_append, hd, presented_gateEvents]
      | some e =>
        cases e with
        | nil =>
          simp [presented_append, hd, presented_gateEvents, presented_removalEvents]
        | unableToListObjects =>
          simp [presented_append, hd, presented_gateEvents]
          rfl
    · rw [processBucket_unconfirmed _ _ _ _ h1 (by simpa using h2)]
      rfl
  · rw [processBucket_declined _ _ _ _ (by simpa using h1)]
    rfl

/-- The loop body returns unless the drain it started has not returned. -/
theorem processBucket_returns_iff (fuel : Nat) (s3 : S3Client) (b : String)
    (stdin : List Char) :
    (processBucket fuel s3 b stdin).result.isSome = true ↔
      (¬ bothYes stdin ∨ (deleteAllObjects fuel s3 b).result.isSome = true) := by
  by_cases h1 : isYes (Scanln stdin).1 = true
  · by_cases h2 : isYes (Scanln (Scanln stdin).2).1 = true
    · rw [processBucket_confirmed _ _ _ _ h1 h2]
      cases hr : (deleteAllObjects fuel s3 b).result with
      | none => simp [bothYes, h1, h2]
      | some e => cases e <;> simp [bothYes, h1, h2]
    · rw [processBucket_unconfirmed _ _ _ _ h1 (by simpa using h2)]
      simp [bothYes, h2]
  · rw [processBucket_declined _ _ _ _ (by simpa using h1)]
    simp [bothYes, h1]

/-- The buckets presented by the loop over the buckets are the first ones of
the list, all of them when the loop has ended. -/
theorem presented_forBuckets (fuel : Nat) (s3 : S3Client) (buckets : List String)
    (stdin : List Char) :
    (∃ rest, presented (forBuckets fuel s3 buckets stdin).trace ++ rest = buckets) ∧
    ((forBuckets fuel s3 buckets stdin).result.isSome = true →
      presented (forBuckets fuel s3 buckets stdin).trace = buckets) := by
  induction buckets generalizing stdin with
  | nil => exact ⟨⟨[], rfl⟩, fun _ => rfl⟩
  | cons b rest ih =>
    simp only [forBuckets]
    cases hr : (processBucket fuel s3 b stdin).result with
    | none =>
      simp only [presented_processBucket]
      exact ⟨⟨rest, rfl⟩, fun h => absurd h (by simp)⟩
    | some stdin' =>
      simp only [presented_append, presented_processBucket]
      obtain ⟨⟨tail, htail⟩, hall⟩ := ih stdin'
      refine ⟨⟨tail, by simp [htail]⟩, fun h => ?_⟩
      rw [hall h]
      rfl

/-- The loop over the buckets ends when every drain returns within the fuel. -/
theorem forBuckets_returns (fuel : Nat) (s3 : S3Client) (buckets : List String)
    (stdin : List Char)
    (h : ∀ b ∈ buckets, (deleteAllObjects fuel s3 b).result.isSome = true) :
    (forBuckets fuel s3 buckets stdin).result.isSome = true := by
  induction buckets generalizing stdin with
  | nil => rfl
  | cons b rest ih =>
    have hb : (processBucket fuel s3 b stdin).result.isSome = true :=
      (processBucket_returns_iff fuel s3 b stdin).mpr (Or.inr (h b (by simp)))
    obtain ⟨stdin', hs⟩ := Option.isSome_iff_exists.mp hb
    simp only [forBuckets, hs]
    exact ih stdin' (fun b' hb' => h b' (by simp [hb']))

/-- A drain that has returned within some fuel has returned within any larger
fuel. -/
theorem deleteAllObjects_returns_mono (s3 : S3Client) (b : String) (fuel extra : Nat)
    (h : (deleteAllObjects fuel s3 b).result.isSome = true) :
    (deleteAllObjects (fuel + extra) s3 b).result.isSome = true := by
  obtain ⟨e, he⟩ := Option.isSome_iff_exists.mp h
  have := pageLoop_mono s3 b fuel 0 0 none none e he extra
  simp only [deleteAllObjects]
  rw [this]
  exact h

/-- Drains that each return within some fuel all return within one fuel. -/
theorem common_fuel (s3 : S3Client) (buckets : List String)
    (h : ∀ b ∈ buckets, ∃ f, (deleteAllObjects f s3 b).result.isSome = true) :
    ∃ fuel, ∀ extra, ∀ b ∈ buckets,
      (deleteAllObjects (fuel + extra) s3 b).result.isSome = true := by
  induction buckets with
  | nil => exact ⟨0, fun _ _ hb => absurd hb (by simp)⟩
  | cons b rest ih =>
    obtain ⟨f, hf⟩ := h b (by simp)
    obtain ⟨g, hg⟩ := ih (fun b' hb' => h b' (by simp [hb']))
    refine ⟨f + g, fun extra b' hb' => ?_⟩
    simp only [List.mem_cons] at hb'
    rcases hb' with rfl | hb'
    · rw [Nat.add_assoc]
      exact deleteAllObjects_returns_mono s3 _ f (g + extra) hf
    · have := hg (f + extra) b' hb'
      rwa [show g + (f + extra) = f + g + extra by omega] at this

/-! ## The confirmation gate -/

/-- The calls about a bucket are made exactly when the two values read are a
yes. -/
theorem calls_iff_stored_yes (fuel : Nat) (s3 : S3Client) (b : String) (stdin : List Char) :
    ((processBucket (fuel + 1) s3 b stdin).trace.filter (Event.isCallFor b) ≠ []
      ↔ (((Scanln stdin).1 = "y" ∨ (Scanln stdin).1 = "Y") ∧
          ((Scanln (Scanln stdin).2).1 = "y" ∨ (Scanln (Scanln stdin).2).1 = "Y"))) ∧
    (¬ (((Scanln stdin).1 = "y" ∨ (Scanln stdin).1 = "Y") ∧
          ((Scanln (Scanln stdin).2).1 = "y" ∨ (Scanln (Scanln stdin).2).1 = "Y")) →
      listCalls (processBucket (fuel + 1) s3 b stdin).trace = [] ∧
      deleteAttempts (processBucket (fuel + 1) s3 b stdin).trace = [] ∧
      removals (processBucket (fuel + 1) s3 b stdin).trace = []) := by
  rw [← isYes_iff, ← isYes_iff]
  by_cases h1 : isYes (Scanln stdin).1 = true
  · by_cases h2 : isYes (Scanln (Scanln stdin).2).1 = true
    · refine ⟨⟨fun _ => ⟨h1, h2⟩, fun _ => ?_⟩, fun h => absurd ⟨h1, h2⟩ h⟩
      obtain ⟨resp, rest, hd⟩ := pageLoop_head s3 b fuel 0 0 none none
      have hd2 : (deleteAllObjects (fuel + 1) s3 b).trace
          = Event.listObjectsV2 b (sentToken none none) resp :: rest := hd
      rw [processBucket_confirmed _ _ _ _ h1 h2]
      cases hr : (deleteAllObjects (fuel + 1) s3 b).result with
      | none => simp [hd2, gateEvents, Event.isCallFor]
      | some e => cases e <;> simp [hd2, gateEvents, Event.isCallFor]
    · have h2f : isYes (Scanln (Scanln stdin).2).1 = false := by simpa using h2
      rw [processBucket_unconfirmed _ _ _ _ h1 h2f]
      simp [h2f, Event.isCallFor, listCalls, deleteAttempts, removals, Event.listCall,
        Event.deleteAttempt, Event.removal]
  · have h1f : isYes (Scanln stdin).1 = false := by simpa using h1
    rw [processBucket_declined _ _ _ _ h1f]
    simp [h1f, Event.isCallFor, listCalls, deleteAttempts, removals, Event.listCall,
      Event.deleteAttempt, Event.removal]

/-- C3, as stated, fails: the operator types the one line "y yy" at the first
question and nothing at the second. The first `fmt.Scanln` stores "y" and fails
on the text that follows, of which it has read the first character; the second
`fmt.Scanln` reads the "y" left over; the bucket "logs" is listed, its 25
objects are deleted and it is removed, after an answer that is not "y" and a
failed read. A line " y" is a yes as well. -/
theorem line_y_yy_answers_both_questions :
    Scanln (typed ["y yy"]) = ("y", typed ["y"]) ∧
    Scanln (typed ["y"]) = ("y", []) ∧
    (listCalls (processBucket 4 scenarioS3 "logs" (typed ["y yy"])).trace).length = 4 ∧
    (deleteAttempts (processBucket 4 scenarioS3 "logs" (typed ["y yy"])).trace).length = 25 ∧
    removals (processBucket 4 scenarioS3 "logs" (typed ["y yy"])).trace = ["logs"] ∧
    removals (processBucket 4 scenarioS3 "logs" (typed [" y", "Y "])).trace = ["logs"] := by
  decide

/-- C3, amended: the loop body of `main` makes a call to S3 about the bucket
(list objects, delete object or delete bucket) exactly when the value
`fmt.Scanln` stores at the first question and the value it stores at the
second are both "y" or "Y", and otherwise makes no list request, starts no
delete and removes no bucket. `fmt.Scanln` stores the first word of the line
typed, blanks before it skipped, and nothing for an empty or blank line or at
the end of the input; a line that holds one word is read whole, so that for two
such lines the calls are made exactly when the word of each is "y" or "Y", and
none is made when the input ends after the first; text after the word is not
refused: its first character is read and the rest is left to the next
question. -/
theorem calls_iff_stored_words_yes (fuel : Nat) (s3 : S3Client) (bucketName : String)
    (stdin : List Char) :
    ((processBucket (fuel + 1) s3 bucketName stdin).trace.filter (Event.isCallFor bucketName) ≠ []
      ↔ (((Scanln stdin).1 = "y" ∨ (Scanln stdin).1 = "Y") ∧
          ((Scanln (Scanln stdin).2).1 = "y" ∨ (Scanln (Scanln stdin).2).1 = "Y"))) ∧
    (¬ (((Scanln stdin).1 = "y" ∨ (Scanln stdin).1 = "Y") ∧
          ((Scanln (Scanln stdin).2).1 = "y" ∨ (Scanln (Scanln stdin).2).1 = "Y")) →
      listCalls (processBucket (fuel + 1) s3 bucketName stdin).trace = [] ∧
      deleteAttempts (processBucket (fuel + 1) s3 bucketName stdin).trace = [] ∧
      removals (processBucket (fuel + 1) s3 bucketName stdin).trace = []) ∧
    Scanln [] = ("", []) ∧
    (∀ line rest, (∀ r ∈ line, isNewline r = false) →
      Scanln (line ++ Char.ofNat 10 :: rest)
        = (firstWord line, expectNewline (afterFirstWord line ++ Char.ofNat 10 :: rest))) ∧
    (∀ line rest, (∀ r ∈ line, isNewline r = false) →
      (∀ r ∈ afterFirstWord line, isSpace r = true) →
      Scanln (line ++ Char.ofNat 10 :: rest) = (firstWord line, rest)) ∧
    (∀ blanks r tail, (∀ x ∈ blanks, isNewline x = false) → (∀ x ∈ blanks, isSpace x = true) →
      isSpace r = false → expectNewline (blanks ++ r :: tail) = tail) ∧
    (∀ line1 line2 rest, (∀ r ∈ line1, isNewline r = false) →
      (∀ r ∈ line2, isNewline r = false) → (∀ r ∈ afterFirstWord line1, isSpace r = true) →
      ((processBucket (fuel + 1) s3 bucketName
          (line1 ++ Char.ofNat 10 :: (line2 ++ Char.ofNat 10 :: rest))).trace.filter
            (Event.isCallFor bucketName) ≠ []
        ↔ ((firstWord line1 = "y" ∨ firstWord line1 = "Y") ∧
            (firstWord line2 = "y" ∨ firstWord line2 = "Y")))) ∧
    (∀ line1, (∀ r ∈ line1, isNewline r = false) →
      (∀ r ∈ afterFirstWord line1, isSpace r = true) →
      (processBucket (fuel + 1) s3 bucketName (line1 ++ [Char.ofNat 10])).trace.filter
        (Event.isCallFor bucketName) = []) := by
  refine ⟨(calls_iff_stored_yes fuel s3 bucketName stdin).1,
    (calls_iff_stored_yes fuel s3 bucketName stdin).2, rfl, Scanln_line, Scanln_one_word,
    expectNewline_text, ?_, ?_⟩
  · intro line1 line2 rest h1 h2 hone
    rw [(calls_iff_stored_yes fuel s3 bucketName _).1, Scanln_one_word line1 _ h1 hone,
      Scanln_line line2 rest h2]
  · intro line1 h1 hone
    have h := (calls_iff_stored_yes fuel s3 bucketName (line1 ++ [Char.ofNat 10])).1
    rw [Scanln_one_word line1 [] h1 hone] at h
    by_contra hne
    have := (h.mp hne).2
    simp [Scanln] at this

/-! ## Listing failures -/

/-- C4: when a list request of a drain fails, `deleteAllObjects` returns the
listing error and not nil, the failed request is the last one it sends, and the
loop body of `main` makes no `DeleteBucket` call for the bucket and goes on to
the next bucket. -/
theorem list_failure_is_fatal (fuel : Nat) (s3 : S3Client) (bucketName : String)
    (stdin : List Char) (i : Nat) (token : Option String)
    (h : (listCalls (deleteAllObjects fuel s3 bucketName).trace)[i]? = some (token, none)) :
    (deleteAllObjects fuel s3 bucketName).result = some GoError.unableToListObjects ∧
    (listCalls (deleteAllObjects fuel s3 bucketName).trace).length = i + 1 ∧
    removals (processBucket fuel s3 bucketName stdin).trace = [] ∧
    (processBucket fuel s3 bucketName stdin).result.isSome = true := by
  obtain ⟨_, hnone, hsome⟩ := calls_pageLoop s3 bucketName fuel 0 0 none none
  have hmem : (token, (none : Option ListObjectsV2Output))
      ∈ listCalls (deleteAllObjects fuel s3 bucketName).trace :=
    List.getElem?_mem h
  have hres : (deleteAllObjects fuel s3 bucketName).result = some GoError.unableToListObjects ∧
      (listCalls (deleteAllObjects fuel s3 bucketName).trace).length = i + 1 := by
    cases hr : (deleteAllObjects fuel s3 bucketName).result with
    | none =>
      have := (hnone hr).2 _ hmem
      simp [endsLoop] at this
    | some e =>
      obtain ⟨init, last, hcs, hinit, _, he⟩ := hsome e hr
      have hcs2 : listCalls (deleteAllObjects fuel s3 bucketName).trace = init ++ [last] := hcs
      rw [hcs2] at h hmem ⊢
      have hi : i = init.length := by
        by_contra hne
        have hlt : i < (init ++ [last]).length := by
          by_contra hge
          rw [List.getElem?_eq_none (by omega)] at h
          exact absurd h (by simp)
        have hlt2 : i < init.length := by
          simp at hlt
          omega
        rw [List.getElem?_append_left hlt2] at h
        have := hinit _ (List.getElem?_mem h)
        simp [endsLoop] at this
      subst hi
      simp at h
      subst h
      refine ⟨?_, by simp⟩
      cases e with
      | nil => simp at he
      | unableToListObjects => rfl
  refine ⟨hres.1, hres.2, ?_, ?_⟩
  · by_cases h1 : isYes (Scanln stdin).1 = true
    · by_cases h2 : isYes (Scanln (Scanln stdin).2).1 = true
      · rw [processBucket_confirmed _ _ _ _ h1 h2, hres.1]
        simp only [removals_append]
        have := removals_pageLoop s3 bucketName fuel 0 0 none none
        have hd : removals (deleteAllObjects fuel s3 bucketName).trace = [] := this
        rw [hd]
        rfl
      · rw [processBucket_unconfirmed _ _ _ _ h1 (by simpa using h2)]
        simp [removals, Event.removal]
    · rw [processBucket_declined _ _ _ _ (by simpa using h1)]
      simp [removals, Event.removal]
  · by_cases h1 : isYes (Scanln stdin).1 = true
    · by_cases h2 : isYes (Scanln (Scanln stdin).2).1 = true
      · rw [processBucket_confirmed _ _ _ _ h1 h2, hres.1]
        rfl
      · rw [processBucket_unconfirmed _ _ _ _ h1 (by simpa using h2)]
        rfl
    · rw [processBucket_declined _ _ _ _ (by simpa using h1)]
      rfl

/-! ## The page loop -/

/-- C2, as stated, fails: the bucket "stuck" answers every list request with
one key and no continuation token; the loop sends a second request after that
page, and whatever the fuel it has not returned. -/
theorem page_without_token_does_not_end_loop :
    listCalls (deleteAllObjects 2 stuckS3 "stuck").trace
        = [(none, some ⟨["a"], none⟩), (none, some ⟨["a"], none⟩)] ∧
    ∀ fuel, (deleteAllObjects fuel stuckS3 "stuck").result = none := by
  refine ⟨by decide, fun fuel => ?_⟩
  apply pageLoop_never_returns
  intro k token
  simp [stuckS3, endsLoop]

/-- C2, amended: the loop ends at the first list answer that is a failure or
an empty page. Such an answer is the last request of the run, which has then
returned for good; after a non-empty page, with or without continuation token,
another request follows as long as fuel is left; the run has returned exactly
when an answer of this kind came, and it returns within `k + 1` iterations when
the request number `k` is answered so whatever token it carries. -/
theorem loop_ends_at_failure_or_empty_page (fuel : Nat) (s3 : S3Client) (bucketName : String) :
    (∀ i c, (listCalls (deleteAllObjects fuel s3 bucketName).trace)[i]? = some c →
      endsLoop c.2 = true →
      (listCalls (deleteAllObjects fuel s3 bucketName).trace).length = i + 1 ∧
      (deleteAllObjects fuel s3 bucketName).result.isSome = true ∧
      ∀ extra, deleteAllObjects (fuel + extra) s3 bucketName
        = deleteAllObjects fuel s3 bucketName) ∧
    (∀ i c, (listCalls (deleteAllObjects fuel s3 bucketName).trace)[i]? = some c →
      endsLoop c.2 = false → i + 1 < fuel →
      ((listCalls (deleteAllObjects fuel s3 bucketName).trace)[i + 1]?).isSome = true) ∧
    ((deleteAllObjects fuel s3 bucketName).result.isSome = true ↔
      ∃ c ∈ listCalls (deleteAllObjects fuel s3 bucketName).trace, endsLoop c.2 = true) ∧
    ((deleteAllObjects fuel s3 bucketName).result = none →
      (listCalls (deleteAllObjects fuel s3 bucketName).trace).length = fuel) ∧
    (∀ k, (∀ token, endsLoop (s3.ListObjectsV2 bucketName k token) = true) →
      (deleteAllObjects (k + 1) s3 bucketName).result.isSome = true) := by
  obtain ⟨_, hnone, hsome⟩ := calls_pageLoop s3 bucketName fuel 0 0 none none
  refine ⟨?_, ?_, ?_, ?_, ?_⟩
  · intro i c h hc
    obtain ⟨hlen, e, he, _⟩ := last_call_pageLoop s3 bucketName fuel 0 0 none none i c h hc
    refine ⟨hlen, ?_, fun extra => pageLoop_mono s3 bucketName fuel 0 0 none none e he extra⟩
    simp only [deleteAllObjects]
    rw [he]
    rfl
  · intro i c h hc hi
    exact next_call_pageLoop s3 bucketName fuel 0 0 none none i c h hc hi
  · constructor
    · intro hr
      cases hres : (deleteAllObjects fuel s3 bucketName).result with
      | none =>
        rw [hres] at hr
        exact absurd hr (by simp)
      | some e =>
        obtain ⟨init, last, hcs, _, hlast, _⟩ := hsome e hres
        refine ⟨last, ?_, hlast⟩
        simp only [deleteAllObjects]
        rw [hcs]
        simp
    · rintro ⟨c, hmem, hc⟩
      cases hres : (deleteAllObjects fuel s3 bucketName).result with
      | none =>
        have := (hnone hres).2 c hmem
        rw [hc] at this
        exact absurd this (by simp)
      | some e => rfl
  · intro hr
    exact (hnone hr).1
  · intro k hk
    apply pageLoop_returns
    intro token
    simpa using hk token

/-! ## The deletes a drain starts -/

/-- C1, as stated, fails: "logs" holds 25 keys listed in pages of 10, 10 and
5, the last page without continuation token; the first delete of each key of
the last page fails. The drain repeats the request with the token "t2", is
answered with the five keys again, and returns nil after 30 deletes started,
the keys of the last page twice. -/
theorem drain_starts_thirty_deletes_for_25_keys :
    (listCalls (deleteAllObjects 5 logsRetried "logs").trace).take 3
        = [(none, some logsPage1), (some "t1", some logsPage2), (some "t2", some logsPage3)] ∧
    (logsPage1.Contents ++ logsPage2.Contents ++ logsPage3.Contents).length = 25 ∧
    logsPage3.NextContinuationToken = none ∧
    (deleteAllObjects 5 logsRetried "logs").result = some GoError.nil ∧
    deleteAttempts (deleteAllObjects 5 logsRetried "logs").trace
        = logsPage1.Contents ++ logsPage2.Contents ++ logsPage3.Contents ++ logsPage3.Contents ∧
    (deleteAttempts (deleteAllObjects 5 logsRetried "logs").trace).length = 30 := by
  decide

/-- C1, amended: when the list requests of a drain are answered by non-empty
pages holding M keys in total and then by an empty page, `deleteAllObjects`
returns nil having started exactly M deletes, one per key listed and in the
order listed; with a semaphore of any capacity N >= 1 the machine can return,
and whenever it has returned it has started exactly these M deletes. In every
run the deletes started are the keys of the pages received, a page received
again being attempted again. -/
theorem drain_starts_one_delete_per_key_listed (s3 : S3Client) (bucketName : String)
    (pages : List ListObjectsV2Output) (capacity : Nat)
    (hpages : ∀ page ∈ pages, page.Contents ≠ [])
    (hanswers : ∀ k page token, pages[k]? = some page →
      s3.ListObjectsV2 bucketName k token = some page)
    (hlast : ∀ token, ∃ page, s3.ListObjectsV2 bucketName pages.length token = some page
      ∧ page.Contents = [])
    (hcapacity : 1 ≤ capacity) :
    (∀ fuel, pages.length < fuel →
      (deleteAllObjects fuel s3 bucketName).result = some GoError.nil ∧
      deleteAttempts (deleteAllObjects fuel s3 bucketName).trace
        = pages.flatMap (fun page => page.Contents) ∧
      (deleteAttempts (deleteAllObjects fuel s3 bucketName).trace).length
        = (pages.map (fun page => page.Contents.length)).sum) ∧
    (∃ s, Reachable capacity s3 bucketName s ∧ s.pc = Pc.returned GoError.nil) ∧
    (∀ s err, Reachable capacity s3 bucketName s → s.pc = Pc.returned err →
      err = GoError.nil ∧
      deleteAttempts s.trace = pages.flatMap (fun page => page.Contents)) ∧
    (∀ fuel, deleteAttempts (deleteAllObjects fuel s3 bucketName).trace
      = (listCalls (deleteAllObjects fuel s3 bucketName).trace).flatMap
          (fun c => keysOf c.2)) := by
  have hrun : ∀ fuel, pages.length < fuel →
      (deleteAllObjects fuel s3 bucketName).result = some GoError.nil ∧
      deleteAttempts (deleteAllObjects fuel s3 bucketName).trace
        = pages.flatMap (fun page => page.Contents) := by
    intro fuel hfuel
    have := pageLoop_scripted s3 bucketName pages fuel 0 0 none none hpages
      (fun j page token hj => by simpa using hanswers j page token hj)
      (fun token => by simpa using hlast token) hfuel
    exact ⟨this.1, this.2.1⟩
  refine ⟨?_, ?_, ?_, ?_⟩
  · intro fuel hfuel
    obtain ⟨h1, h2⟩ := hrun fuel hfuel
    refine ⟨h1, h2, ?_⟩
    rw [h2]
    simp [List.length_flatMap]
    rfl
  · exact Reachable.returns hcapacity (pages.length + 1) DrainState.initial none
      Reachable.entry (Or.inl ⟨rfl, rfl⟩) rfl GoError.nil (hrun _ (by omega)).1
  · intro s err hs hpc
    obtain ⟨f, _, hf2, hf3⟩ := hs.returned_as_run err hpc
    have hmono := pageLoop_mono s3 bucketName f 0 0 none none err hf3 (pages.length + 1)
    obtain ⟨h3, h4⟩ := hrun (f + (pages.length + 1)) (by omega)
    have hsame : deleteAllObjects (f + (pages.length + 1)) s3 bucketName
        = deleteAllObjects f s3 bucketName := hmono
    rw [hsame] at h3 h4
    rw [hf3] at h3
    exact ⟨by simpa using h3, by rw [hf2, h4]⟩
  · intro fuel
    exact attempts_pageLoop s3 bucketName fuel 0 0 none none

/-! ## Continuation tokens -/

/-- C10: the first list request of a drain carries no token; the request after
a page carries the page's continuation token when the page has one, and
otherwise the token the request before carried; a non-empty page without
continuation token does not end the loop, the next request repeats the token
of the one before. -/
theorem request_token_follows_last_page (fuel : Nat) (s3 : S3Client) (bucketName : String) :
    (∀ c, (listCalls (deleteAllObjects fuel s3 bucketName).trace)[0]? = some c → c.1 = none) ∧
    (∀ k c1 c2, (listCalls (deleteAllObjects fuel s3 bucketName).trace)[k]? = some c1 →
      (listCalls (deleteAllObjects fuel s3 bucketName).trace)[k + 1]? = some c2 →
      ∃ page, c1.2 = some page ∧ page.Contents ≠ [] ∧
        (∀ token, page.NextContinuationToken = some token → c2.1 = some token) ∧
        (page.NextContinuationToken = none → c2.1 = c1.1)) ∧
    (∀ k c page, (listCalls (deleteAllObjects fuel s3 bucketName).trace)[k]? = some c →
      c.2 = some page → page.Contents ≠ [] → page.NextContinuationToken = none →
      k + 1 < fuel →
      ∃ c2, (listCalls (deleteAllObjects fuel s3 bucketName).trace)[k + 1]? = some c2 ∧
        c2.1 = c.1) := by
  obtain ⟨h0, hnext⟩ := tokens_pageLoop s3 bucketName fuel 0 0 none none
  have hstep : ∀ k c1 c2, (listCalls (deleteAllObjects fuel s3 bucketName).trace)[k]? = some c1 →
      (listCalls (deleteAllObjects fuel s3 bucketName).trace)[k + 1]? = some c2 →
      ∃ page, c1.2 = some page ∧ page.Contents ≠ [] ∧
        (∀ token, page.NextContinuationToken = some token → c2.1 = some token) ∧
        (page.NextContinuationToken = none → c2.1 = c1.1) := by
    intro k c1 c2 h1 h2
    obtain ⟨page, hp1, hp2, hp3⟩ := hnext k c1 c2 h1 h2
    refine ⟨page, hp1, hp2, ?_, ?_⟩
    · intro token htoken
      simp [hp3, sentToken, htoken]
    · intro hnone
      simp [hp3, sentToken, hnone]
  refine ⟨?_, hstep, ?_⟩
  · intro c hc
    exact h0 c hc
  · intro k c page hc hpage hne htoken hk
    have hends : endsLoop c.2 = false := by
      rw [hpage]
      simp only [endsLoop, decide_eq_false_iff_not]
      intro h
      exact hne (List.length_eq_zero.mp h)
    have := next_call_pageLoop s3 bucketName fuel 0 0 none none k c hc hends hk
    obtain ⟨c2, hc2⟩ := Option.isSome_iff_exists.mp this
    refine ⟨c2, hc2, ?_⟩
    obtain ⟨page2, hp1, _, _, hp4⟩ := hstep k c c2 hc hc2
    rw [hpage] at hp1
    simp only [Option.some.injEq] at hp1
    subst hp1
    exact hp4 htoken

/-! ## The semaphore -/

/-- C9: in every state the machine reaches with the semaphore of capacity 10
created at entry, at most 10 deletes are in flight, each holding one value of
the channel; starting a delete adds one value, a delete that finishes takes
one out, and fetching a page leaves the channel and the deletes in flight as
they are. -/
theorem at_most_ten_deletes_in_flight (s3 : S3Client) (bucketName : String) (s : DrainState)
    (h : Reachable semaphoreCapacity s3 bucketName s) :
    s.inFlight.length ≤ 10 ∧ s.semaphore = s.inFlight.length ∧
    DrainState.initial.semaphore = 0 ∧
    (∀ t, step semaphoreCapacity s3 bucketName Action.fetch s = some t →
      t.semaphore = s.semaphore ∧ t.inFlight = s.inFlight) ∧
    (∀ t, step semaphoreCapacity s3 bucketName Action.dispatch s = some t →
      s.semaphore < 10 ∧ t.semaphore = s.semaphore + 1 ∧
      t.inFlight.length = s.inFlight.length + 1) ∧
    (∀ i t, step semaphoreCapacity s3 bucketName (Action.complete i) s = some t →
      t.semaphore + 1 = s.semaphore ∧ t.inFlight.length + 1 = s.inFlight.length) := by
  obtain ⟨h1, _, h3⟩ := h.counters
  refine ⟨?_, h1, rfl, ?_, ?_, ?_⟩
  · rw [← h1]
    exact h3
  · intro t ht
    have hfetch : ∀ ct, (fetchPage s3 bucketName s ct).semaphore = s.semaphore ∧
        (fetchPage s3 bucketName s ct).inFlight = s.inFlight := by
      intro ct
      simp only [fetchPage]
      split <;> exact ⟨rfl, rfl⟩
    simp only [step] at ht
    split at ht
    · simp only [Option.some.injEq] at ht
      subst ht
      exact hfetch _
    · simp only [Option.some.injEq] at ht
      subst ht
      exact hfetch _
    · exact absurd ht (by simp)
  · intro t ht
    simp only [step] at ht
    split at ht
    · split at ht
      · rename_i hlt
        simp only [Option.some.injEq] at ht
        subst ht
        exact ⟨hlt, rfl, by simp⟩
      · exact absurd ht (by simp)
    · exact absurd ht (by simp)
  · intro i t ht
    have ht' := (Reachable.next (Action.complete i) h ht).counters
    simp only [step] at ht
    split at ht
    · rename_i n key hget
      simp only [Option.some.injEq] at ht
      subst ht
      have hlt : i < s.inFlight.length := by
        by_contra hge
        rw [List.getElem?_eq_none (by omega)] at hget
        exact absurd hget (by simp)
      simp [List.length_eraseIdx, hlt]
      omega
    · exact absurd ht (by simp)

/-! ## Returning with deletes in flight -/

/-- C8, the code at the failing input: "logs" answers the first list request
with ten keys and fails the second. After the steps fetch, ten times dispatch,
fetch the machine has returned the listing error (line 114) with the ten
deletes still in flight. -/
theorem returns_error_with_deletes_in_flight :
    ∃ s, Reachable semaphoreCapacity failingS3 "logs" s ∧
      s.pc = Pc.returned GoError.unableToListObjects ∧
      s.inFlight.map (fun g => g.2) = logsPage1.Contents := by
  have hrun : (runSteps semaphoreCapacity failingS3 "logs"
      (Action.fetch :: (List.replicate 10 Action.dispatch ++ [Action.fetch]))
      DrainState.initial).isSome = true := by decide
  obtain ⟨s, hs⟩ := Option.isSome_iff_exists.mp hrun
  refine ⟨s, Reachable.runSteps _ _ _ Reachable.entry hs, ?_, ?_⟩
  · have : (runSteps semaphoreCapacity failingS3 "logs"
        (Action.fetch :: (List.replicate 10 Action.dispatch ++ [Action.fetch]))
        DrainState.initial).map (fun s => s.pc)
        = some (Pc.returned GoError.unableToListObjects) := by decide
    rw [hs] at this
    simpa using this
  · have : (runSteps semaphoreCapacity failingS3 "logs"
        (Action.fetch :: (List.replicate 10 Action.dispatch ++ [Action.fetch]))
        DrainState.initial).map (fun s => s.inFlight.map (fun g => g.2))
        = some logsPage1.Contents := by decide
    rw [hs] at this
    simpa using this

/-! ## Failed deletes -/

/-- C6, as stated, fails: the enumeration returns "stuck" and "next", both
questions are answered "y"; "stuck" holds one key whose delete is refused, so
its drain never returns: whatever the fuel `main` has not ended and "next" has
not been presented. -/
theorem bucket_after_endless_drain_never_presented :
    stuckS3.ListBuckets = some ["stuck", "next"] ∧
    ∀ fuel, presented (main fuel true stuckS3 (typed ["y", "y", "y", "y"])).trace = ["stuck"] ∧
      (main fuel true stuckS3 (typed ["y", "y", "y", "y"])).result = none := by
  refine ⟨rfl, fun fuel => ?_⟩
  have hnever : (deleteAllObjects fuel stuckS3 "stuck").result = none := by
    apply pageLoop_never_returns
    intro k token
    simp [stuckS3, endsLoop]
  have hbody : processBucket fuel stuckS3 "stuck" (typed ["y", "y", "y", "y"])
      = ⟨gateEvents "stuck" (typed ["y", "y", "y", "y"]) ++ (deleteAllObjects fuel stuckS3 "stuck").trace,
          none⟩ := by
    rw [processBucket_confirmed _ _ _ _ (by decide) (by decide), hnever]
  have hd : presented (deleteAllObjects fuel stuckS3 "stuck").trace = [] :=
    presented_pageLoop stuckS3 "stuck" fuel 0 0 none none
  simp only [main, listBuckets, stuckS3, if_true, forBuckets]
  simp only [stuckS3] at hbody hd
  rw [hbody]
  simp only [presented_append, hd, presented_gateEvents, Option.map_none']
  exact ⟨rfl, trivial⟩

/-- C6, amended: after a successful enumeration `main` presents the buckets
in the order returned, at any moment the first ones of the list and each once;
the loop body opens with the announcement of its bucket, the first question
and the reading of the answer; it returns, and the next bucket is taken, after a decline, after a
drain that returned the listing error and after a removal that failed or
succeeded, and fails to return only when the drain it started has not
returned; so when every drain returns every bucket is presented exactly once,
and `main` exits with status 0. -/
theorem buckets_presented_in_order (s3 : S3Client) (buckets : List String)
    (stdin : List Char) (hlist : s3.ListBuckets = some buckets) :
    (∀ fuel, ∃ rest, presented (main fuel true s3 stdin).trace ++ rest = buckets) ∧
    (∀ fuel, (main fuel true s3 stdin).result.isSome = true →
      presented (main fuel true s3 stdin).trace = buckets ∧
      (main fuel true s3 stdin).result = some 0) ∧
    (∀ fuel b input, (processBucket fuel s3 b input).result.isSome = true ↔
      (¬ bothYes input ∨ (deleteAllObjects fuel s3 b).result.isSome = true)) ∧
    (∀ fuel b rest input input', (processBucket fuel s3 b input).result = some input' →
      (forBuckets fuel s3 (b :: rest) input).trace
        = (processBucket fuel s3 b input).trace ++ (forBuckets fuel s3 rest input').trace) ∧
    ((∀ b ∈ buckets, ∃ f, (deleteAllObjects f s3 b).result.isSome = true) →
      ∃ fuel, ∀ extra, (main (fuel + extra) true s3 stdin).result = some 0 ∧
        presented (main (fuel + extra) true s3 stdin).trace = buckets) ∧
    (∀ fuel b input, ∃ rest, (processBucket fuel s3 b input).trace
      = Event.print (Line.foundBucket b) :: Event.print Line.askEmptyAndDelete
          :: Event.scanln (Scanln input).1 :: rest) := by
  have hmain : ∀ fuel, main fuel true s3 stdin
      = ⟨(forBuckets fuel s3 buckets stdin).trace,
          (forBuckets fuel s3 buckets stdin).result.map (fun _ => 0)⟩ := by
    intro fuel
    simp [main, listBuckets, hlist]
  have hdone : ∀ fuel, (main fuel true s3 stdin).result.isSome = true →
      presented (main fuel true s3 stdin).trace = buckets ∧
      (main fuel true s3 stdin).result = some 0 := by
    intro fuel h
    rw [hmain] at h ⊢
    simp only [Option.isSome_map'] at h
    refine ⟨(presented_forBuckets fuel s3 buckets stdin).2 h, ?_⟩
    obtain ⟨x, hx⟩ := Option.isSome_iff_exists.mp h
    simp [hx]
  refine ⟨?_, hdone, ?_, ?_, ?_, ?_⟩
  · intro fuel
    rw [hmain]
    exact (presented_forBuckets fuel s3 buckets stdin).1
  · intro fuel b input
    exact processBucket_returns_iff fuel s3 b input
  · intro fuel b rest input input' h
    simp only [forBuckets, h]
  · intro h
    obtain ⟨fuel, hfuel⟩ := common_fuel s3 buckets h
    refine ⟨fuel, fun extra => ?_⟩
    have hret := forBuckets_returns (fuel + extra) s3 buckets stdin (hfuel extra)
    have hm : (main (fuel + extra) true s3 stdin).result.isSome = true := by
      rw [hmain]
      simpa using hret
    exact ⟨(hdone _ hm).2, (hdone _ hm).1⟩
  · intro fuel b input
    by_cases h1 : isYes (Scanln input).1 = true
    · by_cases h2 : isYes (Scanln (Scanln input).2).1 = true
      · rw [processBucket_confirmed _ _ _ _ h1 h2]
        cases (deleteAllObjects fuel s3 b).result with
        | none => exact ⟨_, rfl⟩
        | some e => cases e <;> exact ⟨_, rfl⟩
      · rw [processBucket_unconfirmed _ _ _ _ h1 (by simpa using h2)]
        exact ⟨_, rfl⟩
    · rw [processBucket_declined _ _ _ _ (by simpa using h1)]
      exact ⟨_, rfl⟩

/-! ## Removing the bucket -/

/-- C7, as stated, fails: both questions are answered "y" and every list
request on "logs" succeeds. When the deletes are refused the listing never
comes back empty and `DeleteBucket` is never called; when the first delete of
each key of the last page fails, 30 deletes and not 25 are started before the
one removal. -/
theorem logs_not_removed_after_25_deletes :
    (∀ fuel, removals (processBucket fuel logsDenied "logs" (typed ["y", "y"])).trace = [] ∧
      ∀ c ∈ listCalls (processBucket fuel logsDenied "logs" (typed ["y", "y"])).trace,
        c.2.isSome = true) ∧
    removals (processBucket 5 logsRetried "logs" (typed ["y", "y"])).trace = ["logs"] ∧
    (deleteAttempts (processBucket 5 logsRetried "logs" (typed ["y", "y"])).trace).length = 30 := by
  refine ⟨fun fuel => ?_, by decide, by decide⟩
  have hends : ∀ k token, endsLoop (logsDenied.ListObjectsV2 "logs" k token) = false := by
    intro k token
    cases token with
    | none => rfl
    | some t =>
      by_cases ht : t = "t1"
      · simp [logsDenied, logsPage, ht, endsLoop, logsPage2]
      · simp [logsDenied, logsPage, ht, endsLoop, logsPage3]
  have hnever : (deleteAllObjects fuel logsDenied "logs").result = none :=
    pageLoop_never_returns logsDenied "logs" hends fuel 0 0 none none
  refine ⟨?_, ?_⟩
  · rw [removals_processBucket, hnever]
    simp
  · rw [processBucket_confirmed _ _ _ _ (by decide) (by decide), hnever]
    intro c hc
    simp only [listCalls_append] at hc
    have hg : listCalls (gateEvents "logs" (typed ["y", "y"])) = [] := rfl
    rw [hg, List.nil_append] at hc
    obtain ⟨_, hnone, _⟩ := calls_pageLoop logsDenied "logs" fuel 0 0 none none
    have := (hnone hnever).2 c hc
    cases hc2 : c.2 with
    | none =>
      rw [hc2] at this
      exact absurd this (by simp [endsLoop])
    | some page => rfl

/-- C7, amended: when both answers are yes and the drain returns nil, which
it does exactly when every list request succeeded and the last one was
answered by an empty page, the loop body calls `DeleteBucket` exactly once,
and after every list request and every delete started for the bucket; the
deletes started are the keys of the pages received; and in the machine, with
any capacity, once `deleteAllObjects` has returned nil no delete is in flight,
the last list request was answered by an empty page and every key of the pages
received has been started. -/
theorem bucket_removed_once_after_drain (fuel : Nat) (s3 : S3Client) (bucketName : String)
    (stdin : List Char) (capacity : Nat) (hyes : bothYes stdin)
    (hnil : (deleteAllObjects fuel s3 bucketName).result = some GoError.nil) :
    (processBucket fuel s3 bucketName stdin).trace
      = gateEvents bucketName stdin ++ (deleteAllObjects fuel s3 bucketName).trace
          ++ removalEvents s3 bucketName ∧
    removals (processBucket fuel s3 bucketName stdin).trace = [bucketName] ∧
    removals (gateEvents bucketName stdin ++ (deleteAllObjects fuel s3 bucketName).trace) = [] ∧
    listCalls (removalEvents s3 bucketName) = [] ∧
    deleteAttempts (removalEvents s3 bucketName) = [] ∧
    (∃ init token page,
      listCalls (deleteAllObjects fuel s3 bucketName).trace = init ++ [(token, some page)] ∧
      page.Contents = [] ∧
      ∀ c ∈ init, ∃ p, c.2 = some p ∧ p.Contents ≠ []) ∧
    deleteAttempts (processBucket fuel s3 bucketName stdin).trace
      = (listCalls (deleteAllObjects fuel s3 bucketName).trace).flatMap (fun c => keysOf c.2) ∧
    (∀ s, Reachable capacity s3 bucketName s → s.pc = Pc.returned GoError.nil →
      s.inFlight = [] ∧ s.wg = 0 ∧ s.semaphore = 0 ∧
      deleteAttempts s.trace = (listCalls s.trace).flatMap (fun c => keysOf c.2) ∧
      ∃ init token page, listCalls s.trace = init ++ [(token, some page)] ∧
        page.Contents = []) := by
  have htrace : (processBucket fuel s3 bucketName stdin).trace
      = gateEvents bucketName stdin ++ (deleteAllObjects fuel s3 bucketName).trace
          ++ removalEvents s3 bucketName := by
    rw [processBucket_confirmed _ _ _ _ hyes.1 hyes.2, hnil]
  have hd : removals (deleteAllObjects fuel s3 bucketName).trace = [] :=
    removals_pageLoop s3 bucketName fuel 0 0 none none
  refine ⟨htrace, ?_, ?_, listCalls_removalEvents s3 bucketName,
    deleteAttempts_removalEvents s3 bucketName, ?_, ?_, ?_⟩
  · rw [removals_processBucket]
    simp [hyes.1, hyes.2, hnil]
  · rw [removals_append, hd, removals_gateEvents]
    rfl
  · obtain ⟨_, _, hsome⟩ := calls_pageLoop s3 bucketName fuel 0 0 none none
    obtain ⟨init, last, hcs, hinit, hlast, he⟩ := hsome _ hnil
    obtain ⟨page, hpage⟩ := Option.isSome_iff_exists.mp (he.mp rfl)
    refine ⟨init, last.1, page, ?_, ?_, ?_⟩
    · have : last = (last.1, some page) := by
        rw [← hpage]
      rw [← this]
      exact hcs
    · rw [hpage] at hlast
      simpa [endsLoop] using hlast
    · intro c hc
      have := hinit c hc
      cases hc2 : c.2 with
      | none =>
        rw [hc2] at this
        exact absurd this (by simp [endsLoop])
      | some p =>
        rw [hc2] at this
        refine ⟨p, rfl, ?_⟩
        intro hp
        simp [endsLoop, hp] at this
  · rw [htrace]
    simp only [deleteAttempts_append, deleteAttempts_removalEvents, List.append_nil]
    have hg : deleteAttempts (gateEvents bucketName stdin) = [] := rfl
    rw [hg, List.nil_append]
    exact attempts_pageLoop s3 bucketName fuel 0 0 none none
  · intro s hs hpc
    obtain ⟨hw, hin⟩ := hs.joined hpc
    obtain ⟨f, hf1, hf2, hf3⟩ := hs.returned_as_run GoError.nil hpc
    refine ⟨hin, hw, ?_, ?_, ?_⟩
    · rw [hs.counters.1, hin]
      rfl
    · rw [hf1, hf2]
      exact attempts_pageLoop s3 bucketName f 0 0 none none
    · obtain ⟨_, _, hsome⟩ := calls_pageLoop s3 bucketName f 0 0 none none
      obtain ⟨init, last, hcs, _, hlast, he⟩ := hsome _ hf3
      obtain ⟨page, hpage⟩ := Option.isSome_iff_exists.mp (he.mp rfl)
      refine ⟨init, last.1, page, ?_, ?_⟩
      · have : last = (last.1, some page) := by
          rw [← hpage]
        rw [← this, hf1]
        exact hcs
      · rw [hpage] at hlast
        simpa [endsLoop] using hlast

/-! ## The theorems at the sample services -/

/-- C1 at "logs" answered by its three pages and then an empty page, capacity
10: the drain returns nil with 25 deletes started, and the machine can
return. -/
theorem drain_starts_one_delete_per_key_listed_witness :
    (∀ page ∈ [logsPage1, logsPage2, logsPage3], page.Contents ≠ []) ∧
    (∀ k page token, [logsPage1, logsPage2, logsPage3][k]? = some page →
      scenarioS3.ListObjectsV2 "logs" k token = some page) ∧
    (∀ token, ∃ page, scenarioS3.ListObjectsV2 "logs" 3 token = some page
      ∧ page.Contents = []) ∧
    1 ≤ semaphoreCapacity ∧
    ((deleteAllObjects 4 scenarioS3 "logs").result = some GoError.nil ∧
      (deleteAttempts (deleteAllObjects 4 scenarioS3 "logs").trace).length = 25) ∧
    (∃ s, Reachable semaphoreCapacity scenarioS3 "logs" s ∧ s.pc = Pc.returned GoError.nil) := by
  have hpages : ∀ page ∈ [logsPage1, logsPage2, logsPage3], page.Contents ≠ [] := by decide
  have hanswers : ∀ k page token, [logsPage1, logsPage2, logsPage3][k]? = some page →
      scenarioS3.ListObjectsV2 "logs" k token = some page := by
    intro k page token hk
    match k, hk with
    | 0, hk => simpa [scenarioS3] using hk
    | 1, hk => simpa [scenarioS3] using hk
    | 2, hk => simpa [scenarioS3] using hk
    | k + 3, hk => simp at hk
  have hlast : ∀ token, ∃ page, scenarioS3.ListObjectsV2 "logs" 3 token = some page
      ∧ page.Contents = [] := fun _ => ⟨emptyPage, rfl, rfl⟩
  have hcap : 1 ≤ semaphoreCapacity := by decide
  have h := drain_starts_one_delete_per_key_listed scenarioS3 "logs"
    [logsPage1, logsPage2, logsPage3] semaphoreCapacity hpages hanswers hlast hcap
  exact ⟨hpages, hanswers, hlast, hcap, ⟨(h.1 4 (by decide)).1, (h.1 4 (by decide)).2.2⟩, h.2.1⟩

/-- C2 at "logs": the fourth request is answered by an empty page; it is the
last one and the drain has returned. -/
theorem loop_ends_at_failure_or_empty_page_witness :
    (listCalls (deleteAllObjects 6 scenarioS3 "logs").trace)[3]? = some (some "t2", some emptyPage) ∧
    endsLoop (some emptyPage) = true ∧
    (listCalls (deleteAllObjects 6 scenarioS3 "logs").trace).length = 4 ∧
    (deleteAllObjects 6 scenarioS3 "logs").result.isSome = true :=
  ⟨by decide, by decide,
    ((loop_ends_at_failure_or_empty_page 6 scenarioS3 "logs").1 3 (some "t2", some emptyPage)
      (by decide) (by decide)).1,
    ((loop_ends_at_failure_or_empty_page 6 scenarioS3 "logs").1 3 (some "t2", some emptyPage)
      (by decide) (by decide)).2.1⟩

/-- C3 at "logs": the lines " y" and "Y " are two yeses and calls are made;
the lines "yes" and "y" give none; the single line "y" followed by the end of
the input gives none. -/
theorem calls_iff_stored_words_yes_witness :
    ((∀ r ∈ " y".toList, isNewline r = false) ∧ (∀ r ∈ "Y ".toList, isNewline r = false) ∧
      (∀ r ∈ afterFirstWord " y".toList, isSpace r = true) ∧
      (firstWord " y".toList = "y" ∨ firstWord " y".toList = "Y") ∧
      (firstWord "Y ".toList = "y" ∨ firstWord "Y ".toList = "Y") ∧
      (processBucket (3 + 1) scenarioS3 "logs"
        (" y".toList ++ Char.ofNat 10 :: ("Y ".toList ++ Char.ofNat 10 :: []))).trace.filter
          (Event.isCallFor "logs") ≠ []) ∧
    (¬ (((Scanln (typed ["yes", "y"])).1 = "y" ∨ (Scanln (typed ["yes", "y"])).1 = "Y") ∧
        ((Scanln (Scanln (typed ["yes", "y"])).2).1 = "y"
          ∨ (Scanln (Scanln (typed ["yes", "y"])).2).1 = "Y")) ∧
      (listCalls (processBucket (3 + 1) scenarioS3 "logs" (typed ["yes", "y"])).trace = [] ∧
        deleteAttempts (processBucket (3 + 1) scenarioS3 "logs" (typed ["yes", "y"])).trace = [] ∧
        removals (processBucket (3 + 1) scenarioS3 "logs" (typed ["yes", "y"])).trace = [])) ∧
    ((∀ r ∈ "y".toList, isNewline r = false) ∧
      (∀ r ∈ afterFirstWord "y".toList, isSpace r = true) ∧
      (processBucket (3 + 1) scenarioS3 "logs" ("y".toList ++ [Char.ofNat 10])).trace.filter
        (Event.isCallFor "logs") = []) := by
  have h1 : ∀ r ∈ " y".toList, isNewline r = false := by decide
  have h2 : ∀ r ∈ "Y ".toList, isNewline r = false := by decide
  have h3 : ∀ r ∈ afterFirstWord " y".toList, isSpace r = true := by decide
  have h4 : firstWord " y".toList = "y" ∨ firstWord " y".toList = "Y" := by decide
  have h5 : firstWord "Y ".toList = "y" ∨ firstWord "Y ".toList = "Y" := by decide
  have h6 : ∀ r ∈ "y".toList, isNewline r = false := by decide
  have h7 : ∀ r ∈ afterFirstWord "y".toList, isSpace r = true := by decide
  have hno : ¬ (((Scanln (typed ["yes", "y"])).1 = "y" ∨ (Scanln (typed ["yes", "y"])).1 = "Y") ∧
      ((Scanln (Scanln (typed ["yes", "y"])).2).1 = "y"
        ∨ (Scanln (Scanln (typed ["yes", "y"])).2).1 = "Y")) := by decide
  exact ⟨⟨h1, h2, h3, h4, h5,
      ((calls_iff_stored_words_yes 3 scenarioS3 "logs" []).2.2.2.2.2.2.1
        " y".toList "Y ".toList [] h1 h2 h3).mpr ⟨h4, h5⟩⟩,
    ⟨hno, (calls_iff_stored_words_yes 3 scenarioS3 "logs" (typed ["yes", "y"])).2.1 hno⟩,
    ⟨h6, h7, (calls_iff_stored_words_yes 3 scenarioS3 "logs" []).2.2.2.2.2.2.2
      "y".toList h6 h7⟩⟩

/-- C4 at "logs" when the second list request fails: the drain returns the
error after two requests and the bucket is not removed. -/
theorem list_failure_is_fatal_witness :
    (listCalls (deleteAllObjects 3 failingS3 "logs").trace)[1]? = some (some "t1", none) ∧
    ((deleteAllObjects 3 failingS3 "logs").result = some GoError.unableToListObjects ∧
      (listCalls (deleteAllObjects 3 failingS3 "logs").trace).length = 1 + 1 ∧
      removals (processBucket 3 failingS3 "logs" (typed ["y", "y"])).trace = [] ∧
      (processBucket 3 failingS3 "logs" (typed ["y", "y"])).result.isSome = true) :=
  ⟨by decide, list_failure_is_fatal 3 failingS3 "logs" (typed ["y", "y"]) 1 (some "t1") (by decide)⟩

/-- C6 at the buckets "logs" and "archive" when the drain of "logs" fails on
its second list request and no removal succeeds: both buckets are presented and
`main` exits with status 0. -/
theorem buckets_presented_in_order_witness :
    failingS3.ListBuckets = some ["logs", "archive"] ∧
    (∀ b ∈ ["logs", "archive"], ∃ f, (deleteAllObjects f failingS3 b).result.isSome = true) ∧
    (∃ fuel, ∀ extra, (main (fuel + extra) true failingS3 (typed ["y", "y", "y", "y"])).result = some 0 ∧
      presented (main (fuel + extra) true failingS3 (typed ["y", "y", "y", "y"])).trace
        = ["logs", "archive"]) := by
  have hdrains : ∀ b ∈ ["logs", "archive"],
      ∃ f, (deleteAllObjects f failingS3 b).result.isSome = true := by
    intro b hb
    simp only [List.mem_cons, List.mem_singleton, List.not_mem_nil, or_false] at hb
    rcases hb with rfl | rfl
    · exact ⟨2, by decide⟩
    · exact ⟨1, by decide⟩
  exact ⟨rfl, hdrains,
    (buckets_presented_in_order failingS3 ["logs", "archive"] (typed ["y", "y", "y", "y"]) rfl).2.2.2.2.1
      hdrains⟩

/-- C7 at "logs" answered by its three pages and then an empty page, and at
the empty bucket "archive": 25 deletes then one removal, no delete then one
removal. -/
theorem bucket_removed_once_after_drain_witness :
    bothYes (typed ["y", "Y"]) ∧
    (deleteAllObjects 4 scenarioS3 "logs").result = some GoError.nil ∧
    (deleteAllObjects 4 scenarioS3 "archive").result = some GoError.nil ∧
    (removals (processBucket 4 scenarioS3 "logs" (typed ["y", "Y"])).trace = ["logs"] ∧
      (deleteAttempts (processBucket 4 scenarioS3 "logs" (typed ["y", "Y"])).trace).length = 25) ∧
    (removals (processBucket 4 scenarioS3 "archive" (typed ["y", "Y"])).trace = ["archive"] ∧
      (deleteAttempts (processBucket 4 scenarioS3 "archive" (typed ["y", "Y"])).trace).length = 0) := by
  have hyes : bothYes (typed ["y", "Y"]) := ⟨by decide, by decide⟩
  have hlogs : (deleteAllObjects 4 scenarioS3 "logs").result = some GoError.nil := by decide
  have harchive : (deleteAllObjects 4 scenarioS3 "archive").result = some GoError.nil := by
    decide
  have h1 := bucket_removed_once_after_drain 4 scenarioS3 "logs" (typed ["y", "Y"]) semaphoreCapacity
    hyes hlogs
  have h2 := bucket_removed_once_after_drain 4 scenarioS3 "archive" (typed ["y", "Y"])
    semaphoreCapacity hyes harchive
  exact ⟨hyes, hlogs, harchive, ⟨h1.2.1, by decide⟩, ⟨h2.2.1, by decide⟩⟩

/-- C9 at "logs" with the ten objects of the first page started and none
finished: ten deletes are in flight, the channel is full and no further delete
can be started. -/
theorem at_most_ten_deletes_in_flight_witness :
    Reachable semaphoreCapacity failingS3 "logs" tenStarted ∧
    tenStarted.inFlight.length = 10 ∧
    tenStarted.inFlight.length ≤ 10 ∧
    tenStarted.semaphore = tenStarted.inFlight.length := by
  have hreach : Reachable semaphoreCapacity failingS3 "logs" tenStarted :=
    Reachable.runSteps (Action.fetch :: List.replicate 10 Action.dispatch) _ _
      Reachable.entry (by decide)
  exact ⟨hreach, by decide,
    (at_most_ten_deletes_in_flight failingS3 "logs" tenStarted hreach).1,
    (at_most_ten_deletes_in_flight failingS3 "logs" tenStarted hreach).2.1⟩

/-- C10 at "logs" when the keys of the last page are listed again: the third
request carries "t2" and is answered by the five keys without continuation
token; the loop goes on and the fourth request carries "t2" again. -/
theorem request_token_follows_last_page_witness :
    (listCalls (deleteAllObjects 5 logsRetried "logs").trace)[2]?
      = some (some "t2", some logsPage3) ∧
    logsPage3.Contents ≠ [] ∧
    logsPage3.NextContinuationToken = none ∧
    2 + 1 < 5 ∧
    (∃ c2, (listCalls (deleteAllObjects 5 logsRetried "logs").trace)[2 + 1]? = some c2 ∧
      c2.1 = some "t2") :=
  ⟨by decide, by decide, rfl, by decide,
    (request_token_follows_last_page 5 logsRetried "logs").2.2 2
      (some "t2", some logsPage3) logsPage3 (by decide) rfl (by decide) rfl (by decide)⟩

end DeleteBucket
